import Mathlib

/-!
Verification of the version-control subsystem of `trac/versioncontrol/api.py`
(Bloodhound/Trac): `RepositoryManager`, `DbRepositoryProvider`, `Repository`
and `Changeset`.

The embedding is shallow:
* the `repository` database table is a list of rows `(id, name, value)`;
* repository information dictionaries are a structure of optional attributes;
* the manager's mutable state (per-thread instance cache, merged registry
  cache, and an instrumentation log of closed instances) is passed explicitly
  in a `Sys` record;
* Python exceptions (`TracError`) are an `Except` value paired with the state
  left behind at the raise point;
* version-control backends (the `IRepositoryConnector` plugins) are not part
  of the repository's sources, only their interface is; they are modelled as
  abstract constructors that build a `Repos` record following
  `Repository.__init__`, with abstract changeset-lookup behaviour.

String operations are implemented over the character list of a `String` so
that every definition evaluates inside the kernel.
-/

/-- Byte-wise (code-point) strict comparison of characters, as Python
compares the characters of a `str`. -/
def charLtB (a b : Char) : Bool := a.toNat < b.toNat

/-- Lexicographic strict order on character lists, as Python orders `str`. -/
def strLtL : List Char → List Char → Bool
  | [], [] => false
  | [], _ :: _ => true
  | _ :: _, [] => false
  | a :: as, b :: bs => charLtB a b || (a == b && strLtL as bs)

/-- Python `a <= b` on strings. -/
def pyStrLe (a b : String) : Bool := a == b || strLtL a.data b.data

/-- Python `s.startswith(p)`. -/
def strStarts (p s : String) : Bool := p.data.isPrefixOf s.data

/-- Python `s.endswith(p)`. -/
def strEnds (p s : String) : Bool := p.data.isSuffixOf s.data

/-- Python `l.strip(c)` on the underlying character list. -/
def stripL (c : Char) (l : List Char) : List Char :=
  ((l.dropWhile (fun x => x == c)).reverse.dropWhile (fun x => x == c)).reverse

/-- Python `s.strip(c)`. -/
def pyStrip (s : String) (c : Char) : String := String.mk (stripL c s.data)

/-- Python `s.rstrip(c)`. -/
def pyRstrip (s : String) (c : Char) : String :=
  String.mk ((s.data.reverse.dropWhile (fun x => x == c)).reverse)

/-- Python `s[n:]` (drop the first `n` characters). -/
def pyDrop (s : String) (n : Nat) : String := String.mk (s.data.drop n)

/-- Python `len(s)`. -/
def pyLen (s : String) : Nat := s.data.length

/-- Python truthiness of an optional string: `None` and `''` are falsy. -/
def pyTruthy : Option String → Bool
  | none => false
  | some s => !(s == "")

/-- Python `x or default` for an optional string `x` and a string default. -/
def pyOr (o : Option String) (d : String) : String :=
  match o with
  | none => d
  | some v => if v == "" then d else v

/-- Python `x or ''` for an optional string `x`. -/
def pyStrOr (o : Option String) : String := pyOr o ""

/-- `os.path.isabs` on a POSIX path. -/
def os_path_isabs (p : String) : Bool := strStarts "/" p

/-- `os.path.join` of two POSIX path components. -/
def os_path_join (a b : String) : String :=
  if os_path_isabs b then b
  else if a == "" || strEnds "/" a then a ++ b
  else a ++ "/" ++ b

/-- `is_default(reponame)` from `versioncontrol/api.py`: the empty name and
the literal `(default)` (whose translation is itself) denote the default
repository. -/
def is_default (reponame : String) : Bool :=
  reponame == "" || reponame == "(default)"

/-- A raised `TracError`, reduced to its message. -/
structure TracError where
  message : String
  deriving DecidableEq

/-- A row of the `repository` database table: surrogate id, attribute name
(the table's `name` column) and attribute value (`NULL` is `none`). -/
structure Row where
  rid : Nat
  rkey : String
  rvalue : Option String
  deriving DecidableEq

/-- The `repository` table. -/
abbrev Db := List Row

/-- `SELECT COALESCE(MAX(id), 0) FROM repository`. -/
def maxId (db : Db) : Nat := db.foldr (fun r acc => max r.rid acc) 0

/-- `SELECT id FROM repository WHERE name='name' AND value=%s` (first hit). -/
def findRepoNameRow (db : Db) (reponame : String) : Option Nat :=
  (db.find? (fun r => r.rkey == "name" && r.rvalue == some reponame)).map Row.rid

/-- `RepositoryManager.get_repository_id`: return the id recorded for
`reponame`, or allocate `MAX(id) + 1` and persist it, all in one
transaction (the returned table is the post-transaction table). -/
def get_repository_id (db : Db) (reponame : String) : Nat × Db :=
  match findRepoNameRow db reponame with
  | some i => (i, db)
  | none =>
    let i := maxId db + 1
    (i, db ++ [⟨i, "name", some reponame⟩])

/-- A repository information dictionary restricted to the attributes the
code reads (`repository_attrs` plus the synthetic `id`).  The `alias`
attribute is spelled `alias'` because `alias` is reserved in Lean. -/
structure RepoInfo where
  alias' : Option String := none
  description : Option String := none
  dir : Option String := none
  hidden : Option String := none
  name : Option String := none
  type : Option String := none
  url : Option String := none
  id : Option Nat := none
  deriving DecidableEq

/-- `repos.setdefault(id, {})[name] = value` for one row: record one
attribute in an information dictionary.  Attribute names outside
`repository_attrs` do not occur in the query's result set. -/
def RepoInfo.setAttr (info : RepoInfo) (key v : String) : RepoInfo :=
  if key == "alias" then { info with alias' := some v }
  else if key == "description" then { info with description := some v }
  else if key == "dir" then { info with dir := some v }
  else if key == "hidden" then { info with hidden := some v }
  else if key == "name" then { info with name := some v }
  else if key == "type" then { info with type := some v }
  else if key == "url" then { info with url := some v }
  else info

/-- The attribute dictionary accumulated for one repository id by
`DbRepositoryProvider.get_repositories` (rows with `NULL` value are
skipped). -/
def attrsOfId (db : Db) (i : Nat) : RepoInfo :=
  db.foldl (fun info r =>
    match r.rvalue with
    | some v => if r.rid == i then info.setAttr r.rkey v else info
    | none => info) {}

/-- The repository ids present in the table, in order of first appearance. -/
def dbIds (db : Db) : List Nat :=
  db.foldl (fun acc r => if acc.contains r.rid then acc else acc ++ [r.rid]) []

/-- Association-list update with Python `dict` semantics: replace the
binding in place, or append it. -/
def setA {κ α : Type} [BEq κ] : List (κ × α) → κ → α → List (κ × α)
  | [], k, v => [(k, v)]
  | (k', v') :: t, k, v =>
    if k' == k then (k, v) :: t else (k', v') :: setA t k v

/-- Association-list lookup (`dict.get`). -/
def lookupA {κ α : Type} [BEq κ] (l : List (κ × α)) (k : κ) : Option α :=
  (l.find? (fun p => p.1 == k)).map (fun p => p.2)

/-- `DbRepositoryProvider.get_repositories`: group the attribute rows by id,
keep the ids that carry a `name` and a `dir` or `alias`, and key the
resulting dictionaries by repository name (with the id recorded inside). -/
def db_get_repositories (db : Db) : List (String × RepoInfo) :=
  (dbIds db).foldl (fun acc i =>
    let info := attrsOfId db i
    match info.name with
    | some n =>
      if info.dir.isSome || info.alias'.isSome then
        setA acc n { info with id := some i }
      else acc
    | none => acc) []

/-- A changeset, as stored by `Changeset.__init__` (the repository object is
reduced to its instance identity). -/
structure Changeset where
  repos : Nat
  rev : Int
  message : String
  author : String
  date : Int
  deriving DecidableEq

/-- `Changeset.__init__`: `message` and `author` default to the empty string
when `None` (or any falsy value) is passed. -/
def Changeset.init (repos : Nat) (rev : Int) (message author : Option String)
    (date : Int) : Changeset :=
  ⟨repos, rev, pyStrOr message, pyStrOr author, date⟩

/-- Abstract behaviour of a constructed backend.  The concrete backends are
plugins outside this repository; only the interface they implement is in
the sources, so the changeset lookups are abstract functions:
`getChangesetPre rev` is the result of `get_changeset(rev)` after the
repository-wide `sync()`, `getChangesetPost rev` the result after an
additional `sync_changeset(rev)`, and `syncChangesetOld rev` the metadata
returned by `sync_changeset(rev)` itself (`None` is a missing changeset,
modelling the `NoSuchChangeset` exception). -/
structure RepoBehavior where
  getChangesetPre : Int → Option Changeset
  getChangesetPost : Int → Option Changeset
  syncChangesetOld : Int → Option Changeset

/-- An `IRepositoryConnector` plugin: its `get_supported_types()` pairs, the
`error` attribute shown for negative priorities, and the abstract backend
construction used by its `get_repository` (naming and behaviour of the
backend are backend-specific and outside the sources). -/
structure Connector where
  supported : List (String × Int)
  error : String
  mkName : String → String → String
  behav : String → String → RepoBehavior

/-- A constructed `Repository` backend instance.  `instId` is the object
identity (a fresh construction counter); `name`, `reponame` and `id` are
what `Repository.__init__` stores (`self.name`, `params['name']`,
`params['id']`). -/
structure Repos where
  instId : Nat
  name : String
  reponame : String
  id : Nat
  params : RepoInfo
  behav : RepoBehavior

/-- `connector.get_repository(rtype, rdir, params)` followed by
`Repository.__init__`. -/
def mkRepository (instId : Nat) (c : Connector) (rtype rdir : String)
    (params : RepoInfo) : Repos :=
  { instId := instId
    name := c.mkName rtype rdir
    reponame := params.name.getD ""
    id := params.id.getD 0
    params := params
    behav := c.behav rtype rdir }

/-- `Repository.get_base`: the base repository name is `self.name`. -/
def Repos.get_base (r : Repos) : String := r.name

/-- The mutable state of a `RepositoryManager`:
`cache` is `self._cache` (thread id to a dictionary keyed by resolved
repository name), `allRepositories` is `self._all_repositories`,
`nextInstId` the construction counter that realises object identity, and
`closed` an instrumentation log of the instance ids on which `close()` was
called. -/
structure MState where
  cache : List (Nat × List (String × Repos)) := []
  allRepositories : Option (List (String × RepoInfo)) := none
  nextInstId : Nat := 0
  closed : List Nat := []

/-- The whole mutable world: the database and the manager state. -/
structure Sys where
  db : Db := []
  mgr : MState := {}

/-- The static environment: configuration options, registered connectors,
registered repository providers (each reads the current table and yields
`(reponame, info)` pairs), registered change listeners (by id), and the
ambient `os.path.abspath`. -/
structure Config where
  repository_type : String := "svn"
  envpath : String := "/env"
  connectors : List Connector := []
  providers : List (Db → List (String × RepoInfo)) := []
  listeners : List Nat := []
  abspath : String → String := fun p => p

/-- `RepositoryManager.get_supported_types`: the set of types offered by a
connector with non-negative priority. -/
def get_supported_types (cs : List Connector) : List String :=
  cs.foldl (fun acc c =>
    c.supported.foldl (fun acc2 tp =>
      if 0 ≤ tp.2 then
        (if acc2.contains tp.1 then acc2 else acc2 ++ [tp.1])
      else acc2) acc) []

/-- The environment-level connector table built by `_get_connector`: for
each type keep the connector of highest priority (first one wins ties). -/
def buildConnectorTable (cs : List Connector) : List (String × Connector × Int) :=
  cs.foldl (fun table c =>
    c.supported.foldl (fun table2 tp =>
      match lookupA table2 tp.1 with
      | some cp => if tp.2 ≤ cp.2 then table2 else setA table2 tp.1 (c, tp.2)
      | none => setA table2 tp.1 (c, tp.2)) table) []

/-- The message of the `TracError` raised for a known connector with
negative priority. -/
def unsupportedMsg1 (rtype err : String) : String :=
  "Unsupported version control system \"" ++ rtype ++ "\": " ++ err

/-- The message of the `TracError` raised when no connector supports the
type. -/
def unsupportedMsg2 (rtype : String) : String :=
  "Unsupported version control system \"" ++ rtype ++
    "\": Can\x27t find an appropriate component, maybe the corresponding plugin was not enabled? "

/-- `RepositoryManager._get_connector`: look the type up in the connector
table; a negative priority or a missing entry raises a `TracError`
carrying the type name. -/
def get_connector (cs : List Connector) (rtype : String) :
    Except TracError Connector :=
  match lookupA (buildConnectorTable cs) rtype with
  | some cp =>
    if 0 ≤ cp.2 then Except.ok cp.1
    else Except.error ⟨unsupportedMsg1 rtype cp.1.error⟩
  | none => Except.error ⟨unsupportedMsg2 rtype⟩

/-- `RepositoryManager.get_all_repositories`: build (and cache) the merged
registry from all providers, discarding duplicate names, recording the
name inside each entry and allocating a database id for entries that lack
one. -/
def get_all_repositories (cfg : Config) (s : Sys) :
    (List (String × RepoInfo)) × Sys :=
  match s.mgr.allRepositories with
  | some all => (all, s)
  | none =>
    let p := cfg.providers.foldl
      (fun (acc : (List (String × RepoInfo)) × Db) prov =>
        (prov acc.2).foldl (fun acc2 entry =>
          if (lookupA acc2.1 entry.1).isSome then acc2
          else
            let info := { entry.2 with name := some entry.1 }
            match info.id with
            | some _ => (acc2.1 ++ [(entry.1, info)], acc2.2)
            | none =>
              let r := get_repository_id acc2.2 entry.1
              (acc2.1 ++ [(entry.1, { info with id := some r.1 })], r.2))
          acc) ([], s.db)
    (p.1, { db := p.2, mgr := { s.mgr with allRepositories := some p.1 } })

/-- The alias-resolution step of `get_repository`: one level of `alias`
indirection, missing registry entries giving the empty dictionary. -/
def resolveInfo (all : List (String × RepoInfo)) (reponame : String) :
    String × RepoInfo :=
  let repoinfo := (lookupA all reponame).getD {}
  match repoinfo.alias' with
  | some a => (a, (lookupA all a).getD {})
  | none => (reponame, repoinfo)

/-- `RepositoryManager.get_repository` for thread `tid`: resolve the name
through at most one alias, return `None` when no directory is configured,
otherwise return the thread's cached instance or construct one through the
type's connector and cache it under the resolved name. -/
def get_repository (cfg : Config) (s : Sys) (tid : Nat) (rn : String) :
    Except TracError (Option Repos) × Sys :=
  let t1 := get_all_repositories cfg s
  let s1 := t1.2
  let res := resolveInfo t1.1 rn
  let reponame := res.1
  let repoinfo := res.2
  if !(pyTruthy repoinfo.dir) then (Except.ok none, s1)
  else
    let rdir := repoinfo.dir.getD ""
    let rtype := pyOr repoinfo.type cfg.repository_type
    let cache1 := match lookupA s1.mgr.cache tid with
      | some _ => s1.mgr.cache
      | none => setA s1.mgr.cache tid []
    let repositories := (lookupA cache1 tid).getD []
    match lookupA repositories reponame with
    | some repos =>
      (Except.ok (some repos), { s1 with mgr := { s1.mgr with cache := cache1 } })
    | none =>
      let rdir2 := if os_path_isabs rdir then rdir else os_path_join cfg.envpath rdir
      match get_connector cfg.connectors rtype with
      | Except.error e =>
        (Except.error e, { s1 with mgr := { s1.mgr with cache := cache1 } })
      | Except.ok c =>
        let repos := mkRepository s1.mgr.nextInstId c rtype rdir2 repoinfo
        (Except.ok (some repos),
         { s1 with mgr := { s1.mgr with
             cache := setA cache1 tid (setA repositories reponame repos)
             nextInstId := s1.mgr.nextInstId + 1 } })

/-- The normalisation `path = path.strip('/') + '/' if path else '/'` of
`get_repository_by_path`. -/
def pbpNorm (path : String) : String :=
  if path == "" then "/" else pyStrip path '/' ++ "/"

/-- The stripped candidate prefix `reponame.strip('/') + '/'` a registered
name is matched with. -/
def pbpKey (n : String) : String := pyStrip n '/' ++ "/"

/-- The `matches` list of `get_repository_by_path`: `(length, name)` pairs
for every registered name whose stripped form prefixes the path. -/
def pbpMatches (names : List String) (path : String) : List (Nat × String) :=
  names.foldl (fun acc n =>
    if strStarts (pbpKey n) (pbpNorm path) then acc ++ [(pyLen (pbpKey n), n)]
    else acc) []

/-- The order `matches.sort()` uses: Python tuple comparison on
`(length, name)`. -/
def tupLe (a b : Nat × String) : Prop :=
  a.1 < b.1 ∨ (a.1 = b.1 ∧ pyStrLe a.2 b.2 = true)

instance tupLeDec : DecidableRel tupLe := fun a b => by
  unfold tupLe; infer_instance

/-- `path.rstrip('/') or '/'`. -/
def pyOrSlash (s : String) : String :=
  if pyRstrip s '/' == "" then "/" else pyRstrip s '/'

/-- The pure part of `get_repository_by_path`: pick `matches[-1]` after
sorting, and compute the remaining path. -/
def splitPathInfo (names : List String) (path : String) : String × String :=
  match (List.insertionSort tupLe (pbpMatches names path)).getLast? with
  | some lm => (lm.2, pyOrSlash (pyDrop (pbpNorm path) lm.1))
  | none => ("", pyOrSlash (pbpNorm path))

/-- `RepositoryManager.get_repository_by_path`: split the path on the best
matching registered name and look that repository up. -/
def get_repository_by_path (cfg : Config) (s : Sys) (tid : Nat) (path : String) :
    Except TracError (String × Option Repos × String) × Sys :=
  let t1 := get_all_repositories cfg s
  let pr := splitPathInfo (t1.1.map (fun e => e.1)) path
  match get_repository cfg t1.2 tid pr.1 with
  | (Except.error e, s2) => (Except.error e, s2)
  | (Except.ok r, s2) => (Except.ok (pr.1, r, pr.2), s2)

/-- `RepositoryManager.reload_repositories`: clear the per-thread instance
cache and the merged registry cache. -/
def reload_repositories (s : Sys) : Sys :=
  { s with mgr := { s.mgr with cache := [], allRepositories := none } }

/-- `RepositoryManager.shutdown(tid)`: pop the thread's cache entry and call
`close()` on every instance it held (recorded in the `closed` log). -/
def shutdown (s : Sys) (tid : Nat) : Sys :=
  if tid ≠ 0 then
    let repositories := (lookupA s.mgr.cache tid).getD []
    { s with mgr := { s.mgr with
        cache := s.mgr.cache.filter (fun p => !(p.1 == tid))
        closed := s.mgr.closed ++ repositories.map (fun q => q.2.instId) } }
  else s

/-- `DbRepositoryProvider.add_repository`: validate that the directory is
absolute and the explicit type supported, then in one transaction allocate
the repository id and insert the `dir` and `type` attribute rows, and
reload the registry. -/
def add_repository (cfg : Config) (s : Sys) (reponame0 dir : String)
    (type' : Option String) : Except TracError Unit × Sys :=
  if !(os_path_isabs dir) then
    (Except.error ⟨"The repository directory must be absolute"⟩, s)
  else
    let reponame := if is_default reponame0 then "" else reponame0
    if pyTruthy type' &&
        !((get_supported_types cfg.connectors).contains (pyStrOr type')) then
      (Except.error ⟨"The repository type \x27" ++ pyStrOr type' ++
        "\x27 is not supported"⟩, s)
    else
      let r := get_repository_id s.db reponame
      let db2 := r.2 ++ [⟨r.1, "dir", some dir⟩, ⟨r.1, "type", some (pyStrOr type')⟩]
      (Except.ok (), reload_repositories { s with db := db2 })

/-- `RepositoryManager.get_repositories_by_dir`: the real repositories whose
configured directory lies below the given directory (POSIX `normcase` is
the identity). -/
def get_repositories_by_dir (cfg : Config) (s : Sys) (tid : Nat)
    (directory : String) : Except TracError (List Repos) × Sys :=
  let dirp := os_path_join directory ""
  let t1 := get_all_repositories cfg s
  t1.1.foldl (fun acc entry =>
    match acc with
    | (Except.error e, s2) => (Except.error e, s2)
    | (Except.ok rs, s2) =>
      match entry.2.dir with
      | some d =>
        if !(d == "") && strStarts dirp (os_path_join d "") then
          match get_repository cfg s2 tid entry.1 with
          | (Except.error e, s3) => (Except.error e, s3)
          | (Except.ok (some r), s3) => (Except.ok (rs ++ [r]), s3)
          | (Except.ok none, s3) => (Except.ok rs, s3)
        else (Except.ok rs, s2)
      | none => (Except.ok rs, s2)) (Except.ok [], t1.2)

/-- `RepositoryManager.get_real_repositories`: look every registered name
up, skipping invalid repositories (`TracError`) and aliases, collecting a
set of instances (deduplicated by object identity). -/
def get_real_repositories (cfg : Config) (s : Sys) (tid : Nat) :
    List Repos × Sys :=
  let t1 := get_all_repositories cfg s
  t1.1.foldl (fun acc entry =>
    match get_repository cfg acc.2 tid entry.1 with
    | (Except.error _, s2) => (acc.1, s2)
    | (Except.ok none, s2) => (acc.1, s2)
    | (Except.ok (some r), s2) =>
      if acc.1.any (fun x => x.instId == r.instId) then (acc.1, s2)
      else (acc.1 ++ [r], s2)) ([], t1.2)

/-- The repository-selection phase of `RepositoryManager.notify`: the named
repository's base mates, or the repositories under the path, or the
repositories whose base is the given name. -/
def notify_matched (cfg : Config) (s : Sys) (tid : Nat) (reponame : String) :
    Except TracError (List Repos) × Sys :=
  match get_repository cfg s tid reponame with
  | (Except.error e, s1) => (Except.error e, s1)
  | (Except.ok (some repos), s1) =>
    if !(repos.get_base == "") then
      let t := get_real_repositories cfg s1 tid
      (Except.ok (t.1.filter (fun r => r.get_base == repos.get_base)), t.2)
    else (Except.ok [], s1)
  | (Except.ok none, s1) =>
    match get_repositories_by_dir cfg s1 tid (cfg.abspath reponame) with
    | (Except.error e, s2) => (Except.error e, s2)
    | (Except.ok rs, s2) =>
      if !rs.isEmpty then (Except.ok rs, s2)
      else if !(reponame == "") then
        let t := get_real_repositories cfg s2 tid
        (Except.ok (t.1.filter (fun r => r.get_base == reponame)), t.2)
      else (Except.ok [], s2)

/-- One listener invocation performed by `notify`. -/
structure Invocation where
  listener : Nat
  event : String
  repoInst : Nat
  rev : Int
  changeset : Changeset
  args : List (Option Changeset)
  deriving DecidableEq

/-- The per-revision body of `notify`'s loop: fetch the changeset, resync
and retry on `NoSuchChangeset`, silently skip when it is still missing,
otherwise invoke every registered listener. -/
def notify_rev (listeners : List Nat) (event : String) (r : Repos)
    (rev : Int) : List Invocation :=
  let args : List (Option Changeset) :=
    if event == "changeset_modified" then [r.behav.syncChangesetOld rev] else []
  match r.behav.getChangesetPre rev with
  | some cs => listeners.map (fun l => ⟨l, event, r.instId, rev, cs, args⟩)
  | none =>
    match r.behav.getChangesetPost rev with
    | some cs => listeners.map (fun l => ⟨l, event, r.instId, rev, cs, args⟩)
    | none => []

/-- The per-repository body of `notify`'s loop (after `repos.sync()`, which
has no observable effect in the model). -/
def notify_repos (listeners : List Nat) (event : String) (r : Repos)
    (revs : List Int) : List Invocation :=
  revs.foldl (fun acc rev => acc ++ notify_rev listeners event r rev) []

/-- The order `sorted(repositories, key=lambda r: r.reponame)` uses. -/
def reposLe (a b : Repos) : Prop := pyStrLe a.reponame b.reponame = true

instance reposLeDec : DecidableRel reposLe := fun a b => by
  unfold reposLe; infer_instance

/-- `RepositoryManager.notify`: select the matching repositories, return
silently when there are none, otherwise process every revision of every
matched repository in `reponame` order, collecting the listener
invocations. -/
def notify (cfg : Config) (s : Sys) (tid : Nat) (event reponame : String)
    (revs : List Int) : Except TracError (List Invocation) × Sys :=
  match notify_matched cfg s tid reponame with
  | (Except.error e, s1) => (Except.error e, s1)
  | (Except.ok rs, s1) =>
    if rs.isEmpty then (Except.ok [], s1)
    else
      (Except.ok ((rs.insertionSort reposLe).foldl
        (fun acc r => acc ++ notify_repos cfg.listeners event r revs) []), s1)

/-! ### Helper lemmas -/

theorem lookupA_cons {κ α : Type} [BEq κ] (k' : κ) (v' : α) (t : List (κ × α))
    (k : κ) :
    lookupA ((k', v') :: t) k = if k' == k then some v' else lookupA t k := by
  simp only [lookupA, List.find?]
  cases h : (k' == k) <;> simp [h]

theorem lookupA_setA_self {κ α : Type} [BEq κ] [LawfulBEq κ]
    (l : List (κ × α)) (k : κ) (v : α) :
    lookupA (setA l k v) k = some v := by
  induction l with
  | nil => simp [setA, lookupA, List.find?]
  | cons p t ih =>
    rcases p with ⟨k', v'⟩
    simp only [setA]
    by_cases h : (k' == k)
    · simp [h, lookupA_cons]
    · simp only [h]
      rw [if_neg (by simp_all), lookupA_cons, if_neg h]
      exact ih

theorem lookupA_setA_ne {κ α : Type} [BEq κ] [LawfulBEq κ]
    (l : List (κ × α)) (k k2 : κ) (v : α) (h : k2 ≠ k) :
    lookupA (setA l k v) k2 = lookupA l k2 := by
  have hk2 : (k == k2) = false := by
    rw [beq_eq_false_iff_ne]
    intro hc; exact h hc.symm
  induction l with
  | nil =>
    simp [setA, lookupA, List.find?, hk2]
  | cons p t ih =>
    rcases p with ⟨k', v'⟩
    simp only [setA]
    by_cases hk : (k' == k)
    · rw [if_pos hk, lookupA_cons, lookupA_cons, hk2]
      have hkk : (k' == k2) = false := by
        rw [beq_eq_false_iff_ne]
        intro hc
        rw [eq_of_beq hk] at hc
        exact h hc.symm
      rw [hkk]
      simp
    · rw [if_neg (by simp [hk]), lookupA_cons, lookupA_cons]
      by_cases h2 : (k' == k2)
      · rw [if_pos h2, if_pos h2]
      · rw [if_neg h2, if_neg h2, ih]

theorem rid_le_maxId {db : Db} {r : Row} (h : r ∈ db) : r.rid ≤ maxId db := by
  induction db with
  | nil => cases h
  | cons a t ih =>
    rcases List.mem_cons.mp h with h1 | h1
    · subst h1
      exact Nat.le_max_left _ _
    · exact Nat.le_trans (ih h1) (Nat.le_max_right _ _)

theorem maxId_foldr_init (db : Db) (i : Nat) :
    db.foldr (fun r acc => max r.rid acc) i = max (maxId db) i := by
  induction db with
  | nil => simp [maxId]
  | cons a t ih =>
    simp only [maxId, List.foldr] at *
    rw [ih, Nat.max_assoc]

theorem maxId_append (db1 db2 : Db) :
    maxId (db1 ++ db2) = max (maxId db1) (maxId db2) := by
  simp only [maxId, List.foldr_append]
  exact maxId_foldr_init db1 _

/-! ### C10: Changeset construction normalises message and author -/

/-- C10: `Changeset.__init__` maps a `None` (or empty, i.e. falsy) `message`
or `author` to the empty string, and in general stores `message or ''` and
`author or ''`, so both attributes are always strings, never `None`. -/
theorem changeset_init_defaults (repos : Nat) (rev : Int) (d : Int) :
    (Changeset.init repos rev none none d).message = "" ∧
    (Changeset.init repos rev none none d).author = "" ∧
    (Changeset.init repos rev (some "") (some "") d).message = "" ∧
    (Changeset.init repos rev (some "") (some "") d).author = "" ∧
    (∀ m a : Option String,
      (Changeset.init repos rev m a d).message = pyStrOr m ∧
      (Changeset.init repos rev m a d).author = pyStrOr a) :=
  ⟨rfl, rfl, rfl, rfl, fun _ _ => ⟨rfl, rfl⟩⟩

/-! ### C9: repository id allocation -/

theorem get_repository_id_found {db : Db} {n : String} {i : Nat}
    (h : findRepoNameRow db n = some i) : get_repository_id db n = (i, db) := by
  simp [get_repository_id, h]

theorem get_repository_id_fresh {db : Db} {n : String}
    (h : findRepoNameRow db n = none) :
    get_repository_id db n =
      (maxId db + 1, db ++ [⟨maxId db + 1, "name", some n⟩]) := by
  simp [get_repository_id, h]

theorem findRepoNameRow_append_fresh (db : Db) (n n2 : String) (i : Nat)
    (hne : n2 ≠ n) :
    findRepoNameRow (db ++ [⟨i, "name", some n⟩]) n2 = findRepoNameRow db n2 := by
  simp only [findRepoNameRow]
  rw [List.find?_append]
  cases hdb : db.find? (fun r => r.rkey == "name" && r.rvalue == some n2) with
  | some r => simp [hdb]
  | none =>
    simp only [hdb, Option.none_or]
    simp only [List.find?]
    have hc : ((⟨i, "name", some n⟩ : Row).rkey == "name" &&
        (⟨i, "name", some n⟩ : Row).rvalue == some n2) = false := by
      simp only [Bool.and_eq_false_iff, beq_eq_false_iff_ne]
      right
      intro hcx
      exact hne (by injection hcx with hv; exact hv.symm)
    rw [hc]

theorem findRepoNameRow_append_self (db : Db) (n : String) (i : Nat)
    (h : findRepoNameRow db n = none) :
    findRepoNameRow (db ++ [⟨i, "name", some n⟩]) n = some i := by
  simp only [findRepoNameRow] at h ⊢
  rw [List.find?_append]
  cases hdb : db.find? (fun r => r.rkey == "name" && r.rvalue == some n) with
  | some r => simp [hdb] at h
  | none => simp [List.find?]

theorem findRepoNameRow_mem {db : Db} {n : String} {i : Nat}
    (h : findRepoNameRow db n = some i) :
    ∃ r, r ∈ db ∧ r.rid = i ∧ r.rkey = "name" ∧ r.rvalue = some n := by
  simp only [findRepoNameRow] at h
  cases hdb : db.find? (fun r => r.rkey == "name" && r.rvalue == some n) with
  | none => simp [hdb] at h
  | some r =>
    rw [hdb] at h
    simp only [Option.map] at h
    have hp := List.find?_some hdb
    simp only [Bool.and_eq_true, beq_iff_eq] at hp
    exact ⟨r, List.mem_of_find?_eq_some hdb, by injection h, hp.1, hp.2⟩

/-- C9: `get_repository_id` allocates `MAX(id) + 1` for a fresh name and
persists it in the same transaction; a second call with the same name
returns the same id without touching the table; distinct names get
distinct ids (under the table invariant that `name` rows relate ids and
values injectively). -/
theorem repository_id_stable (db : Db) (n1 n2 : String)
    (hwf : ∀ r1, r1 ∈ db → r1.rkey = "name" → ∀ r2, r2 ∈ db →
      r2.rkey = "name" → r1.rid = r2.rid → r1.rvalue = r2.rvalue)
    (hne : n1 ≠ n2) :
    (findRepoNameRow db n1 = none →
      get_repository_id db n1 =
        (maxId db + 1, db ++ [⟨maxId db + 1, "name", some n1⟩])) ∧
    (get_repository_id (get_repository_id db n1).2 n1 =
      ((get_repository_id db n1).1, (get_repository_id db n1).2)) ∧
    (get_repository_id (get_repository_id db n1).2 n2).1 ≠
      (get_repository_id db n1).1 := by
  refine ⟨fun h => get_repository_id_fresh h, ?_, ?_⟩
  · cases hf : findRepoNameRow db n1 with
    | some i =>
      rw [get_repository_id_found hf, get_repository_id_found hf]
    | none =>
      rw [get_repository_id_fresh hf,
        get_repository_id_found (findRepoNameRow_append_self db n1 _ hf)]
  · cases hf : findRepoNameRow db n1 with
    | some i =>
      rw [get_repository_id_found hf]
      rcases findRepoNameRow_mem hf with ⟨r1, hmem1, hid1, hkey1, hval1⟩
      cases hf2 : findRepoNameRow db n2 with
      | some j =>
        rw [get_repository_id_found hf2]
        rcases findRepoNameRow_mem hf2 with ⟨r2, hmem2, hid2, hkey2, hval2⟩
        intro hcon
        have hji : j = i := hcon
        have hrr : r2.rid = r1.rid := by rw [hid1, hid2, hji]
        have := hwf r2 hmem2 hkey2 r1 hmem1 hkey1 hrr
        rw [hval1, hval2] at this
        exact hne (by injection this with hv; exact hv.symm)
      | none =>
        rw [get_repository_id_fresh hf2]
        have hle : i ≤ maxId db := by rw [← hid1]; exact rid_le_maxId hmem1
        show maxId db + 1 ≠ i
        omega
    | none =>
      rw [get_repository_id_fresh hf]
      show (get_repository_id
        (db ++ [(⟨maxId db + 1, "name", some n1⟩ : Row)]) n2).1 ≠ maxId db + 1
      have happ := findRepoNameRow_append_fresh db n1 n2 (maxId db + 1)
        (fun hx => hne hx.symm)
      cases hf2 : findRepoNameRow db n2 with
      | some j =>
        have hfa : findRepoNameRow
            (db ++ [(⟨maxId db + 1, "name", some n1⟩ : Row)]) n2 = some j := by
          rw [happ, hf2]
        rw [get_repository_id_found hfa]
        rcases findRepoNameRow_mem hf2 with ⟨r2, hmem2, hid2, hkey2, hval2⟩
        have hle : j ≤ maxId db := by rw [← hid2]; exact rid_le_maxId hmem2
        show j ≠ maxId db + 1
        omega
      | none =>
        have hfa : findRepoNameRow
            (db ++ [(⟨maxId db + 1, "name", some n1⟩ : Row)]) n2 = none := by
          rw [happ, hf2]
        rw [get_repository_id_fresh hfa]
        show maxId (db ++ [(⟨maxId db + 1, "name", some n1⟩ : Row)]) + 1 ≠
          maxId db + 1
        rw [maxId_append]
        simp only [maxId, List.foldr]
        omega

/-- Witness for `repository_id_stable`: concrete run on the empty table. -/
theorem repository_id_stable_witness :
    (∀ r1, r1 ∈ ([] : Db) → r1.rkey = "name" → ∀ r2, r2 ∈ ([] : Db) →
      r2.rkey = "name" → r1.rid = r2.rid → r1.rvalue = r2.rvalue) ∧
    ("a" : String) ≠ "b" ∧
    ((findRepoNameRow ([] : Db) "a" = none →
        get_repository_id ([] : Db) "a" = (1, [⟨1, "name", some "a"⟩])) ∧
      (get_repository_id (get_repository_id ([] : Db) "a").2 "a" =
        ((get_repository_id ([] : Db) "a").1,
         (get_repository_id ([] : Db) "a").2)) ∧
      (get_repository_id (get_repository_id ([] : Db) "a").2 "b").1 ≠
        (get_repository_id ([] : Db) "a").1) :=
  ⟨fun r1 h1 => absurd h1 (by simp),
   by decide,
   repository_id_stable ([] : Db) "a" "b" (fun r1 h1 => absurd h1 (by simp))
     (by decide)⟩

/-! ### C4: names without a configured directory yield None -/

/-- C4: for a name that is absent from the registry, and for any name whose
registry entry (after the single alias-resolution step) carries no `dir`
attribute, `get_repository` returns `None` without raising and without
constructing or caching anything (the state is returned unchanged). -/
theorem get_repository_no_dir (cfg : Config) (s : Sys) (tid : Nat)
    (reponame : String) (all : List (String × RepoInfo))
    (h_all : s.mgr.allRepositories = some all) :
    (lookupA all reponame = none →
      get_repository cfg s tid reponame = (Except.ok none, s)) ∧
    ((resolveInfo all reponame).2.dir = none →
      get_repository cfg s tid reponame = (Except.ok none, s)) := by
  have hmain : ∀ _ : (resolveInfo all reponame).2.dir = none,
      get_repository cfg s tid reponame = (Except.ok none, s) := by
    intro hdir
    simp only [get_repository, get_all_repositories, h_all, hdir, pyTruthy,
      Bool.not_false, if_pos]
  refine ⟨fun hlk => hmain ?_, hmain⟩
  simp [resolveInfo, hlk]

/-- A registry fixture: `x` is an alias for the unregistered `y`. -/
def sysW1 : Sys :=
  { db := [], mgr := { allRepositories := some [("x", { alias' := some "y" })] } }

/-- Witness for `get_repository_no_dir`: an unknown name and an alias to an
unconfigured repository both yield `None`. -/
theorem get_repository_no_dir_witness :
    sysW1.mgr.allRepositories = some [("x", { alias' := some "y" })] ∧
    lookupA [("x", ({ alias' := some "y" } : RepoInfo))] "z" = none ∧
    (resolveInfo [("x", ({ alias' := some "y" } : RepoInfo))] "x").2.dir = none ∧
    get_repository {} sysW1 1 "z" = (Except.ok none, sysW1) ∧
    get_repository {} sysW1 1 "x" = (Except.ok none, sysW1) :=
  ⟨rfl, by decide, by decide,
   (get_repository_no_dir {} sysW1 1 "z" _ rfl).1 (by decide),
   (get_repository_no_dir {} sysW1 1 "x" _ rfl).2 (by decide)⟩

/-! ### C5: add_repository validation and transactional insert -/

/-- C5: `DbRepositoryProvider.add_repository` raises before writing anything
when the directory is not absolute or the explicit type is unsupported (the
state comes back untouched), and otherwise inserts, in one transaction, the
three attribute rows (`name` id allocation, `dir`, `type`) for a
not-yet-registered name. -/
theorem add_repository_validates (cfg : Config) (s : Sys)
    (reponame dir : String) (type' : Option String) :
    (os_path_isabs dir = false →
      add_repository cfg s reponame dir type' =
        (Except.error ⟨"The repository directory must be absolute"⟩, s)) ∧
    (os_path_isabs dir = true → pyTruthy type' = true →
      (get_supported_types cfg.connectors).contains (pyStrOr type') = false →
      add_repository cfg s reponame dir type' =
        (Except.error ⟨"The repository type \x27" ++ pyStrOr type' ++
          "\x27 is not supported"⟩, s)) ∧
    (os_path_isabs dir = true →
      (pyTruthy type' = true →
        (get_supported_types cfg.connectors).contains (pyStrOr type') = true) →
      findRepoNameRow s.db (if is_default reponame then "" else reponame) =
        none →
      (add_repository cfg s reponame dir type').1 = Except.ok () ∧
      (add_repository cfg s reponame dir type').2.db =
        s.db ++ [⟨maxId s.db + 1, "name",
                   some (if is_default reponame then "" else reponame)⟩,
                 ⟨maxId s.db + 1, "dir", some dir⟩,
                 ⟨maxId s.db + 1, "type", some (pyStrOr type')⟩]) := by
  refine ⟨?_, ?_, ?_⟩
  · intro h
    simp [add_repository, h]
  · intro h1 h2 h3
    have h3m : pyStrOr type' ∉ get_supported_types cfg.connectors := by
      simpa using h3
    simp [add_repository, h1, h2, h3m]
  · intro h1 h2 hfresh
    have hcondP : ¬(pyTruthy type' = true ∧
        pyStrOr type' ∉ get_supported_types cfg.connectors) := by
      rintro ⟨hty, hmem⟩
      exact hmem (by simpa using h2 hty)
    constructor
    · simp [add_repository, h1, hcondP]
    · simp [add_repository, h1, hcondP, reload_repositories,
        get_repository_id_fresh hfresh]

/-- A connector fixture supporting `svn` with priority 0 and trivially
empty backends. -/
def connW : Connector :=
  { supported := [("svn", 0)]
    error := ""
    mkName := fun t d => t ++ ":" ++ d
    behav := fun _ _ =>
      { getChangesetPre := fun _ => none
        getChangesetPost := fun _ => none
        syncChangesetOld := fun _ => none } }

/-- A configuration fixture: the `svn` connector and the database-backed
repository provider. -/
def cfgW : Config :=
  { connectors := [connW], providers := [db_get_repositories], listeners := [0] }

/-- Witness for `add_repository_validates`: a relative directory is
rejected with the state untouched, and a fresh absolute `svn` repository
writes exactly the three attribute rows. -/
theorem add_repository_validates_witness :
    os_path_isabs "rel" = false ∧
    add_repository cfgW {} "r" "rel" none =
      (Except.error ⟨"The repository directory must be absolute"⟩, ({} : Sys)) ∧
    (add_repository cfgW {} "r" "/d" (some "svn")).1 = Except.ok () ∧
    (add_repository cfgW {} "r" "/d" (some "svn")).2.db =
      [⟨1, "name", some "r"⟩, ⟨1, "dir", some "/d"⟩, ⟨1, "type", some "svn"⟩] :=
  ⟨by decide,
   (add_repository_validates cfgW {} "r" "rel" none).1 (by decide),
   ((add_repository_validates cfgW {} "r" "/d" (some "svn")).2.2 (by decide)
     (fun _ => by decide) (by decide)).1,
   ((add_repository_validates cfgW {} "r" "/d" (some "svn")).2.2 (by decide)
     (fun _ => by decide) (by decide)).2⟩

/-! ### C7: shutdown closes and evicts a thread's cached instances -/

/-- All instance ids held anywhere in the per-thread cache. -/
def cacheInstIds (c : List (Nat × List (String × Repos))) : List Nat :=
  c.foldl (fun acc p => acc ++ p.2.map (fun q => q.2.instId)) []

theorem cacheInstIds_foldl_acc (c : List (Nat × List (String × Repos)))
    (acc : List Nat) :
    c.foldl (fun a p => a ++ p.2.map (fun q => q.2.instId)) acc =
      acc ++ cacheInstIds c := by
  induction c generalizing acc with
  | nil => simp [cacheInstIds]
  | cons p t ih =>
    simp only [cacheInstIds, List.foldl, List.nil_append]
    rw [ih, ih (p.2.map (fun q => q.2.instId)), List.append_assoc]

theorem cacheInstIds_cons (p : Nat × List (String × Repos))
    (t : List (Nat × List (String × Repos))) :
    cacheInstIds (p :: t) = p.2.map (fun q => q.2.instId) ++ cacheInstIds t := by
  show List.foldl (fun a x => a ++ x.2.map (fun q => q.2.instId))
      ([] ++ p.2.map (fun q => q.2.instId)) t = _
  rw [List.nil_append, cacheInstIds_foldl_acc]

theorem lookupA_mem_cacheInstIds (c : List (Nat × List (String × Repos)))
    (tid : Nat) (m : List (String × Repos)) (h : lookupA c tid = some m) :
    ∀ q ∈ m, q.2.instId ∈ cacheInstIds c := by
  induction c with
  | nil => simp [lookupA, List.find?] at h
  | cons p t ih =>
    intro q hq
    rcases p with ⟨k, v⟩
    rw [lookupA_cons] at h
    rw [cacheInstIds_cons]
    by_cases hk : (k == tid)
    · rw [if_pos hk] at h
      injection h with h
      subst h
      exact List.mem_append_left _ (List.mem_map_of_mem _ hq)
    · rw [if_neg hk] at h
      exact List.mem_append_right _ (ih h q hq)

theorem lookupA_filter_self (l : List (Nat × List (String × Repos)))
    (tid : Nat) :
    lookupA (l.filter (fun p => !(p.1 == tid))) tid = none := by
  induction l with
  | nil => rfl
  | cons p t ih =>
    by_cases h : (p.1 == tid)
    · simp only [List.filter, h, Bool.not_true]
      exact ih
    · simp only [List.filter, h, Bool.not_false]
      rcases p with ⟨k, v⟩
      rw [lookupA_cons, if_neg h]
      exact ih

theorem get_all_mgr_fields (cfg : Config) (s : Sys) :
    (get_all_repositories cfg s).2.mgr.cache = s.mgr.cache ∧
    (get_all_repositories cfg s).2.mgr.nextInstId = s.mgr.nextInstId ∧
    (get_all_repositories cfg s).2.mgr.closed = s.mgr.closed := by
  cases h : s.mgr.allRepositories <;> simp [get_all_repositories, h]

/-- A fresh construction happens whenever the calling thread has no cache
dictionary at all: the returned instance carries the next construction
counter. -/
theorem get_repository_fresh_construct (cfg : Config) (s : Sys) (tid : Nat)
    (n : String) (hmiss : lookupA s.mgr.cache tid = none) :
    ∀ r s2, get_repository cfg s tid n = (Except.ok (some r), s2) →
      r.instId = s.mgr.nextInstId := by
  intro r s2 h
  have hc := (get_all_mgr_fields cfg s).1
  have hn := (get_all_mgr_fields cfg s).2.1
  simp only [get_repository] at h
  split at h
  · exact absurd (congrArg Prod.fst h) (by simp)
  · rw [hc, hmiss] at h
    rw [lookupA_setA_self] at h
    simp only [Option.getD] at h
    rw [show lookupA ([] : List (String × Repos))
        (resolveInfo (get_all_repositories cfg s).1 n).1 = none from rfl] at h
    split at h
    · rename_i rr heq2
      cases heq2
    · split at h
      · exact absurd (congrArg Prod.fst h) (by simp)
      · have hf := congrArg Prod.fst h
        simp only [] at hf
        injection hf with hf
        injection hf with hf
        rw [← hf]
        simpa [mkRepository] using hn

/-- C7: `shutdown(tid)` closes every backend cached for the thread (their
instance ids move to the closed log), removes the thread's cache entry, and
a subsequent `get_repository` in that thread constructs a fresh backend
(the next construction counter), never one of the closed instances. -/
theorem shutdown_closes_thread_cache (cfg : Config) (s : Sys) (tid : Nat)
    (n : String) (htid : tid ≠ 0)
    (hwf : ∀ i, i ∈ cacheInstIds s.mgr.cache ++ s.mgr.closed →
      i < s.mgr.nextInstId) :
    lookupA (shutdown s tid).mgr.cache tid = none ∧
    (shutdown s tid).mgr.closed =
      s.mgr.closed ++
        ((lookupA s.mgr.cache tid).getD []).map (fun q => q.2.instId) ∧
    ∀ r s2, get_repository cfg (shutdown s tid) tid n =
        (Except.ok (some r), s2) →
      r.instId = (shutdown s tid).mgr.nextInstId ∧
      r.instId ∉ (shutdown s tid).mgr.closed := by
  have hsd : shutdown s tid = { s with mgr := { s.mgr with
      cache := s.mgr.cache.filter (fun p => !(p.1 == tid))
      closed := s.mgr.closed ++ ((lookupA s.mgr.cache tid).getD []).map
        (fun q => q.2.instId) } } := by
    simp [shutdown, htid]
  refine ⟨?_, ?_, ?_⟩
  · rw [hsd]
    exact lookupA_filter_self _ _
  · rw [hsd]
  · intro r s2 h
    have hmiss : lookupA (shutdown s tid).mgr.cache tid = none := by
      rw [hsd]
      exact lookupA_filter_self _ _
    have hinst :=
      get_repository_fresh_construct cfg (shutdown s tid) tid n hmiss r s2 h
    refine ⟨hinst, ?_⟩
    rw [hsd] at hinst ⊢
    simp only [] at hinst ⊢
    intro hmem
    rcases List.mem_append.mp hmem with hcl | hmap
    · have := hwf r.instId (List.mem_append_right _ hcl)
      omega
    · cases hlk : lookupA s.mgr.cache tid with
      | none =>
        rw [hlk] at hmap
        simp at hmap
      | some m =>
        rw [hlk] at hmap
        simp only [Option.getD] at hmap
        rcases List.mem_map.mp hmap with ⟨q, hqm, hqe⟩
        have := hwf q.2.instId
          (List.mem_append_left _ (lookupA_mem_cacheInstIds _ _ _ hlk q hqm))
        rw [hqe] at this
        omega

/-- A backend fixture cached for thread 7 in `sysW2`. -/
def reposW : Repos :=
  mkRepository 0 connW "svn" "/d"
    { dir := some "/d", name := some "r", id := some 1 }

/-- A state fixture: repository `r` registered in the table and one backend
instance cached for thread 7. -/
def sysW2 : Sys :=
  { db := [⟨1, "name", some "r"⟩, ⟨1, "dir", some "/d"⟩,
           ⟨1, "type", some "svn"⟩]
    mgr := { cache := [(7, [("r", reposW)])], nextInstId := 1 } }

/-- Witness for `shutdown_closes_thread_cache`: concrete shutdown of
thread 7. -/
theorem shutdown_closes_thread_cache_witness :
    (7 : Nat) ≠ 0 ∧
    (∀ i, i ∈ cacheInstIds sysW2.mgr.cache ++ sysW2.mgr.closed →
      i < sysW2.mgr.nextInstId) ∧
    (lookupA (shutdown sysW2 7).mgr.cache 7 = none ∧
     (shutdown sysW2 7).mgr.closed =
       sysW2.mgr.closed ++
         ((lookupA sysW2.mgr.cache 7).getD []).map (fun q => q.2.instId) ∧
     ∀ r s2, get_repository cfgW (shutdown sysW2 7) 7 "r" =
         (Except.ok (some r), s2) →
       r.instId = (shutdown sysW2 7).mgr.nextInstId ∧
       r.instId ∉ (shutdown sysW2 7).mgr.closed) :=
  ⟨by decide, by decide,
   shutdown_closes_thread_cache cfgW sysW2 7 "r" (by decide) (by decide)⟩

/-! ### C8: unsupported repository type raises a configuration error -/

/-- The type has no usable connector: either no table entry, or only one
with negative priority. -/
def connectorBad (cs : List Connector) (t : String) : Bool :=
  match lookupA (buildConnectorTable cs) t with
  | some cp => decide (cp.2 < 0)
  | none => true

theorem setA_absent {κ α : Type} [BEq κ] (l : List (κ × α)) (k : κ) (v : α)
    (h : lookupA l k = none) : setA l k v = l ++ [(k, v)] := by
  induction l with
  | nil => rfl
  | cons p t ih =>
    rcases p with ⟨k', v'⟩
    rw [lookupA_cons] at h
    by_cases hk : (k' == k)
    · rw [if_pos hk] at h
      simp at h
    · rw [if_neg hk] at h
      simp [setA, hk, ih h]

theorem cacheInstIds_append_empty (c : List (Nat × List (String × Repos)))
    (tid : Nat) :
    cacheInstIds (c ++ [(tid, [])]) = cacheInstIds c := by
  simp only [cacheInstIds, List.foldl_append, List.foldl]
  simp

theorem get_connector_bad (cs : List Connector) (t : String)
    (hbad : connectorBad cs t = true) :
    ∃ e, get_connector cs t = Except.error e ∧
      ∃ post, e.message =
        "Unsupported version control system \"" ++ t ++ post := by
  unfold connectorBad at hbad
  cases hlk : lookupA (buildConnectorTable cs) t with
  | none =>
    refine ⟨⟨unsupportedMsg2 t⟩, by simp [get_connector, hlk], ?_⟩
    exact ⟨"\": Can\x27t find an appropriate component, maybe the corresponding plugin was not enabled? ",
      by simp [unsupportedMsg2, String.append_assoc]⟩
  | some cp =>
    rw [hlk] at hbad
    simp only [decide_eq_true_eq] at hbad
    refine ⟨⟨unsupportedMsg1 t cp.1.error⟩, ?_, ?_⟩
    · simp only [get_connector, hlk]
      rw [if_neg (by omega)]
    · exact ⟨"\": " ++ cp.1.error,
        by simp [unsupportedMsg1, String.append_assoc]⟩

/-- C8: when the resolved repository has a configured directory but its type
has no registered connector, or only one of negative priority, and the
thread holds no cached instance for it, `get_repository` raises a
`TracError` whose message carries the offending type name; no backend is
constructed (the construction counter and the cached instances are
unchanged). -/
theorem unsupported_type_raises (cfg : Config) (s : Sys) (tid : Nat)
    (rn : String) (all : List (String × RepoInfo))
    (h_all : s.mgr.allRepositories = some all)
    (hdir : pyTruthy (resolveInfo all rn).2.dir = true)
    (hmiss : lookupA ((lookupA s.mgr.cache tid).getD [])
      (resolveInfo all rn).1 = none)
    (hbad : connectorBad cfg.connectors
      (pyOr (resolveInfo all rn).2.type cfg.repository_type) = true) :
    ∃ e s2, get_repository cfg s tid rn = (Except.error e, s2) ∧
      (∃ post, e.message = "Unsupported version control system \"" ++
        pyOr (resolveInfo all rn).2.type cfg.repository_type ++ post) ∧
      s2.mgr.nextInstId = s.mgr.nextInstId ∧
      cacheInstIds s2.mgr.cache = cacheInstIds s.mgr.cache := by
  have hga : get_all_repositories cfg s = (all, s) := by
    simp [get_all_repositories, h_all]
  rcases get_connector_bad cfg.connectors _ hbad with ⟨e1, hge, post, hpost⟩
  cases hcc : lookupA s.mgr.cache tid with
  | some m =>
    refine ⟨e1, { s with mgr := { s.mgr with cache := s.mgr.cache } },
      ?_, ⟨post, hpost⟩, rfl, rfl⟩
    rw [hcc] at hmiss
    simp only [Option.getD] at hmiss
    simp only [get_repository, hga, hdir, Bool.not_true, hcc, hmiss, hge]
    simp [hmiss]
  | none =>
    refine ⟨e1, { s with mgr := { s.mgr with
        cache := setA s.mgr.cache tid [] } }, ?_, ⟨post, hpost⟩, rfl, ?_⟩
    · simp only [get_repository, hga, hdir, Bool.not_true, hcc,
        lookupA_setA_self, Option.getD, hge]
      have hn : lookupA ([] : List (String × Repos))
          (resolveInfo all rn).1 = none := rfl
      simp only [hn]
      simp
    · rw [setA_absent _ _ _ hcc, cacheInstIds_append_empty]

/-- A state fixture: repository `r` of the unsupported type `hg`. -/
def sysW3 : Sys :=
  { db := []
    mgr := { allRepositories := some [("r", { dir := some "/d", type := some "hg" })] } }

/-- A configuration fixture without any connector. -/
def cfgW8 : Config := { connectors := [] }

/-- Witness for `unsupported_type_raises`: looking up an `hg` repository
with no connectors registered raises. -/
theorem unsupported_type_raises_witness :
    sysW3.mgr.allRepositories =
      some [("r", { dir := some "/d", type := some "hg" })] ∧
    pyTruthy (resolveInfo [("r", ({ dir := some "/d", type := some "hg" } :
      RepoInfo))] "r").2.dir = true ∧
    lookupA ((lookupA sysW3.mgr.cache 1).getD [])
      (resolveInfo [("r", ({ dir := some "/d", type := some "hg" } :
        RepoInfo))] "r").1 = none ∧
    connectorBad cfgW8.connectors
      (pyOr (resolveInfo [("r", ({ dir := some "/d", type := some "hg" } :
        RepoInfo))] "r").2.type cfgW8.repository_type) = true ∧
    (∃ e s2, get_repository cfgW8 sysW3 1 "r" = (Except.error e, s2) ∧
      (∃ post, e.message = "Unsupported version control system \"" ++
        pyOr (resolveInfo [("r", ({ dir := some "/d", type := some "hg" } :
          RepoInfo))] "r").2.type cfgW8.repository_type ++ post) ∧
      s2.mgr.nextInstId = sysW3.mgr.nextInstId ∧
      cacheInstIds s2.mgr.cache = cacheInstIds sysW3.mgr.cache) :=
  ⟨rfl, by decide, rfl, by decide,
   unsupported_type_raises cfgW8 sysW3 1 "r" _ rfl (by decide) rfl (by decide)⟩

/-! ### C1: alias resolution returns the cached target instance -/

/-- The instance constructed by a cache miss for `rn`. -/
def missRepo (cfg : Config) (s : Sys) (rn : String)
    (all : List (String × RepoInfo)) (c : Connector) : Repos :=
  mkRepository s.mgr.nextInstId c
    (pyOr (resolveInfo all rn).2.type cfg.repository_type)
    (if os_path_isabs ((resolveInfo all rn).2.dir.getD "") then
      (resolveInfo all rn).2.dir.getD ""
     else os_path_join cfg.envpath ((resolveInfo all rn).2.dir.getD ""))
    (resolveInfo all rn).2

/-- Evaluation of `get_repository` on a per-name cache miss when the thread
already has a cache dictionary. -/
theorem get_repository_miss_eq1 (cfg : Config) (s : Sys) (tid : Nat)
    (rn : String) (all : List (String × RepoInfo)) (c : Connector)
    (m : List (String × Repos))
    (h_all : s.mgr.allRepositories = some all)
    (hd : pyTruthy (resolveInfo all rn).2.dir = true)
    (hct : lookupA s.mgr.cache tid = some m)
    (hmiss : lookupA m (resolveInfo all rn).1 = none)
    (hcc : get_connector cfg.connectors
      (pyOr (resolveInfo all rn).2.type cfg.repository_type) = Except.ok c) :
    get_repository cfg s tid rn =
      (Except.ok (some (missRepo cfg s rn all c)),
       { s with mgr := { s.mgr with
           cache := setA s.mgr.cache tid
             (setA m (resolveInfo all rn).1 (missRepo cfg s rn all c))
           nextInstId := s.mgr.nextInstId + 1 } }) := by
  have hga : get_all_repositories cfg s = (all, s) := by
    simp [get_all_repositories, h_all]
  simp only [get_repository, hga, hd, Bool.not_true, hct, Option.getD, hmiss,
    hcc, missRepo]
  simp

/-- Evaluation of `get_repository` on a miss when the thread has no cache
dictionary yet. -/
theorem get_repository_miss_eq2 (cfg : Config) (s : Sys) (tid : Nat)
    (rn : String) (all : List (String × RepoInfo)) (c : Connector)
    (h_all : s.mgr.allRepositories = some all)
    (hd : pyTruthy (resolveInfo all rn).2.dir = true)
    (hct : lookupA s.mgr.cache tid = none)
    (hcc : get_connector cfg.connectors
      (pyOr (resolveInfo all rn).2.type cfg.repository_type) = Except.ok c) :
    get_repository cfg s tid rn =
      (Except.ok (some (missRepo cfg s rn all c)),
       { s with mgr := { s.mgr with
           cache := setA (setA s.mgr.cache tid []) tid
             (setA [] (resolveInfo all rn).1 (missRepo cfg s rn all c))
           nextInstId := s.mgr.nextInstId + 1 } }) := by
  have hga : get_all_repositories cfg s = (all, s) := by
    simp [get_all_repositories, h_all]
  simp only [get_repository, hga, hd, Bool.not_true, hct,
    lookupA_setA_self, Option.getD, hcc, missRepo]
  have hn : lookupA ([] : List (String × Repos))
      (resolveInfo all rn).1 = none := rfl
  simp only [hn]
  simp

/-- Evaluation of `get_repository` on a per-thread cache hit. -/
theorem get_repository_hit_eq (cfg : Config) (s : Sys) (tid : Nat)
    (rn : String) (all : List (String × RepoInfo))
    (m : List (String × Repos)) (repos : Repos)
    (h_all : s.mgr.allRepositories = some all)
    (hd : pyTruthy (resolveInfo all rn).2.dir = true)
    (hct : lookupA s.mgr.cache tid = some m)
    (hcb : lookupA m (resolveInfo all rn).1 = some repos) :
    get_repository cfg s tid rn = (Except.ok (some repos), s) := by
  have hga : get_all_repositories cfg s = (all, s) := by
    simp [get_all_repositories, h_all]
  simp only [get_repository, hga, hd, Bool.not_true, hct, Option.getD, hcb]
  simp

/-- Successful lookup: under a materialised registry, a configured directory
and a usable connector, `get_repository` returns an instance that is also
recorded in the thread's cache under the resolved name. -/
theorem get_repository_resolves (cfg : Config) (s : Sys) (tid : Nat)
    (rn : String) (all : List (String × RepoInfo))
    (h_all : s.mgr.allRepositories = some all)
    (hd : pyTruthy (resolveInfo all rn).2.dir = true)
    (hc : (get_connector cfg.connectors
      (pyOr (resolveInfo all rn).2.type cfg.repository_type)).isOk = true) :
    ∃ r s1, get_repository cfg s tid rn = (Except.ok (some r), s1) ∧
      s1.mgr.allRepositories = some all ∧
      ∃ m1, lookupA s1.mgr.cache tid = some m1 ∧
        lookupA m1 (resolveInfo all rn).1 = some r := by
  obtain ⟨c, hcc⟩ : ∃ c, get_connector cfg.connectors
      (pyOr (resolveInfo all rn).2.type cfg.repository_type) = Except.ok c := by
    cases hx : get_connector cfg.connectors
        (pyOr (resolveInfo all rn).2.type cfg.repository_type) with
    | ok c => exact ⟨c, rfl⟩
    | error e => rw [hx] at hc; simp [Except.isOk, Except.toBool] at hc
  cases hct : lookupA s.mgr.cache tid with
  | some m =>
    cases hcb : lookupA m (resolveInfo all rn).1 with
    | some repos =>
      exact ⟨repos, s,
        get_repository_hit_eq cfg s tid rn all m repos h_all hd hct hcb,
        h_all, m, hct, hcb⟩
    | none =>
      exact ⟨missRepo cfg s rn all c, _,
        get_repository_miss_eq1 cfg s tid rn all c m h_all hd hct hcb hcc,
        h_all, _, lookupA_setA_self _ _ _, lookupA_setA_self _ _ _⟩
  | none =>
    exact ⟨missRepo cfg s rn all c, _,
      get_repository_miss_eq2 cfg s tid rn all c h_all hd hct hcc,
      h_all, _, lookupA_setA_self _ _ _, lookupA_setA_self _ _ _⟩

/-- C1: when `A` is registered as `alias=B` and `B` is a real repository
with a configured directory, alias resolution follows exactly one level of
indirection (`A` resolves to `B`'s entry) and, within one thread,
`get_repository A` followed by `get_repository B` return the very same
backend instance: the cache is keyed by the resolved name. -/
theorem alias_resolution_same_instance (cfg : Config) (s : Sys) (tid : Nat)
    (nameA nameB : String) (all : List (String × RepoInfo)) (ia ib : RepoInfo)
    (h_all : s.mgr.allRepositories = some all)
    (hA : lookupA all nameA = some ia) (haA : ia.alias' = some nameB)
    (hB : lookupA all nameB = some ib) (haB : ib.alias' = none)
    (hd : pyTruthy ib.dir = true)
    (hc : (get_connector cfg.connectors
      (pyOr ib.type cfg.repository_type)).isOk = true) :
    resolveInfo all nameA = (nameB, ib) ∧
    ∃ r s1 s2, get_repository cfg s tid nameA = (Except.ok (some r), s1) ∧
      get_repository cfg s1 tid nameB = (Except.ok (some r), s2) := by
  have hresA : resolveInfo all nameA = (nameB, ib) := by
    simp [resolveInfo, hA, haA, hB]
  have hresB : resolveInfo all nameB = (nameB, ib) := by
    simp [resolveInfo, hB, haB]
  refine ⟨hresA, ?_⟩
  obtain ⟨r, s1, heq1, hall1, m1, hm1, hr1⟩ :=
    get_repository_resolves cfg s tid nameA all h_all
      (by rw [hresA]; exact hd) (by rw [hresA]; exact hc)
  rw [hresA] at hr1
  have heq2 : get_repository cfg s1 tid nameB = (Except.ok (some r), s1) :=
    get_repository_hit_eq cfg s1 tid nameB all m1 r hall1
      (by rw [hresB]; exact hd) hm1 (by rw [hresB]; exact hr1)
  exact ⟨r, s1, s1, heq1, heq2⟩

/-- A registry fixture for alias resolution: `A` is an alias of `B`. -/
def allW1 : List (String × RepoInfo) :=
  [("A", { alias' := some "B" }), ("B", { dir := some "/d" })]

/-- A state fixture with the alias registry materialised. -/
def sysW4 : Sys := { db := [], mgr := { allRepositories := some allW1 } }

/-- Witness for `alias_resolution_same_instance`: concrete alias `A -> B`. -/
theorem alias_resolution_same_instance_witness :
    sysW4.mgr.allRepositories = some allW1 ∧
    lookupA allW1 "A" = some { alias' := some "B" } ∧
    ({ alias' := some "B" } : RepoInfo).alias' = some "B" ∧
    lookupA allW1 "B" = some { dir := some "/d" } ∧
    ({ dir := some "/d" } : RepoInfo).alias' = none ∧
    pyTruthy ({ dir := some "/d" } : RepoInfo).dir = true ∧
    (get_connector cfgW.connectors
      (pyOr ({ dir := some "/d" } : RepoInfo).type
        cfgW.repository_type)).isOk = true ∧
    (resolveInfo allW1 "A" = ("B", { dir := some "/d" }) ∧
     ∃ r s1 s2, get_repository cfgW sysW4 1 "A" = (Except.ok (some r), s1) ∧
       get_repository cfgW s1 1 "B" = (Except.ok (some r), s2)) :=
  ⟨rfl, by decide, by decide, by decide, by decide, by decide, by decide,
   alias_resolution_same_instance cfgW sysW4 1 "A" "B" allW1
     { alias' := some "B" } { dir := some "/d" } rfl
     (by decide) (by decide) (by decide) (by decide) (by decide) (by decide)⟩

/-! ### C2: longest-prefix matching in get_repository_by_path -/

theorem char_eq_of_toNat_eq {a b : Char} (h : a.toNat = b.toNat) : a = b :=
  Char.eq_of_val_eq (UInt32.ext h)

theorem string_eq_of_data_eq {a b : String} (h : a.data = b.data) : a = b := by
  cases a
  cases b
  simp_all

theorem strLtL_total (l1 l2 : List Char) :
    l1 = l2 ∨ strLtL l1 l2 = true ∨ strLtL l2 l1 = true := by
  induction l1 generalizing l2 with
  | nil =>
    cases l2 with
    | nil => exact Or.inl rfl
    | cons b bs => exact Or.inr (Or.inl rfl)
  | cons a as ih =>
    cases l2 with
    | nil => exact Or.inr (Or.inr rfl)
    | cons b bs =>
      by_cases hab : charLtB a b = true
      · exact Or.inr (Or.inl (by simp [strLtL, hab]))
      · by_cases hba : charLtB b a = true
        · exact Or.inr (Or.inr (by simp [strLtL, hba]))
        · have hEq : a = b := by
            apply char_eq_of_toNat_eq
            simp only [charLtB, decide_eq_true_eq] at hab hba
            omega
          subst hEq
          rcases ih bs with h | h | h
          · exact Or.inl (by rw [h])
          · exact Or.inr (Or.inl (by simp [strLtL, h]))
          · exact Or.inr (Or.inr (by simp [strLtL, h]))

theorem pyStrLe_total (x y : String) :
    pyStrLe x y = true ∨ pyStrLe y x = true := by
  rcases strLtL_total x.data y.data with h | h | h
  · left
    have : x = y := string_eq_of_data_eq h
    simp [pyStrLe, this]
  · left
    simp [pyStrLe, h]
  · right
    simp [pyStrLe, h]

theorem pyStrLe_refl (x : String) : pyStrLe x x = true := by
  simp [pyStrLe]

theorem strLtL_trans (l1 l2 l3 : List Char) (h12 : strLtL l1 l2 = true)
    (h23 : strLtL l2 l3 = true) : strLtL l1 l3 = true := by
  induction l1 generalizing l2 l3 with
  | nil =>
    cases l3 with
    | nil =>
      cases l2 with
      | nil => exact h12
      | cons b bs => simp [strLtL] at h23
    | cons c cs => rfl
  | cons a as ih =>
    cases l2 with
    | nil => simp [strLtL] at h12
    | cons b bs =>
      cases l3 with
      | nil => simp [strLtL] at h23
      | cons c cs =>
        simp only [strLtL, Bool.or_eq_true, Bool.and_eq_true] at h12 h23 ⊢
        rcases h12 with h12 | ⟨hab, h12⟩
        · rcases h23 with h23 | ⟨hbc, h23⟩
          · left
            simp only [charLtB, decide_eq_true_eq] at h12 h23 ⊢
            omega
          · left
            rw [← (eq_of_beq hbc)]
            exact h12
        · rcases h23 with h23 | ⟨hbc, h23⟩
          · left
            rw [(eq_of_beq hab)]
            exact h23
          · right
            refine ⟨by rw [eq_of_beq hab, eq_of_beq hbc, beq_self_eq_true], ?_⟩
            exact ih bs cs h12 h23

theorem pyStrLe_trans (x y z : String) (h1 : pyStrLe x y = true)
    (h2 : pyStrLe y z = true) : pyStrLe x z = true := by
  simp only [pyStrLe, Bool.or_eq_true, beq_iff_eq] at h1 h2 ⊢
  rcases h1 with h1 | h1
  · subst h1
    exact h2
  · rcases h2 with h2 | h2
    · subst h2
      right
      exact h1
    · right
      exact strLtL_trans _ _ _ h1 h2

instance tupLeTotal : IsTotal (Nat × String) tupLe := by
  constructor
  intro a b
  rcases Nat.lt_trichotomy a.1 b.1 with h | h | h
  · exact Or.inl (Or.inl h)
  · rcases pyStrLe_total a.2 b.2 with h2 | h2
    · exact Or.inl (Or.inr ⟨h, h2⟩)
    · exact Or.inr (Or.inr ⟨h.symm, h2⟩)
  · exact Or.inr (Or.inl h)

instance tupLeTrans : IsTrans (Nat × String) tupLe := by
  constructor
  intro a b c hab hbc
  rcases hab with hab | ⟨hab, hab2⟩
  · rcases hbc with hbc | ⟨hbc, _⟩
    · exact Or.inl (Nat.lt_trans hab hbc)
    · exact Or.inl (hbc ▸ hab)
  · rcases hbc with hbc | ⟨hbc, hbc2⟩
    · exact Or.inl (hab ▸ hbc)
    · exact Or.inr ⟨hab.trans hbc, pyStrLe_trans _ _ _ hab2 hbc2⟩

theorem tupLe_refl (a : Nat × String) : tupLe a a :=
  Or.inr ⟨rfl, pyStrLe_refl a.2⟩

theorem sorted_rel_getLast {α : Type} {r : α → α → Prop} (hrefl : ∀ a, r a a)
    (l : List α) (hs : List.Sorted r l) (hne : l ≠ []) :
    ∀ x ∈ l, r x (l.getLast hne) := by
  induction l with
  | nil => exact absurd rfl hne
  | cons a t ih =>
    intro x hx
    cases t with
    | nil =>
      rcases List.mem_cons.mp hx with hxa | hxt
      · subst hxa
        exact hrefl x
      · cases hxt
    | cons b t2 =>
      rw [List.getLast_cons (by simp)]
      rcases List.mem_cons.mp hx with hxa | hxt
      · subst hxa
        exact (List.sorted_cons.mp hs).1 _ (List.getLast_mem _)
      · exact ih (List.sorted_cons.mp hs).2 (by simp) x hxt

theorem pbpMatches_foldl_acc (names : List String) (path : String)
    (acc : List (Nat × String)) :
    names.foldl (fun a n =>
      if strStarts (pbpKey n) (pbpNorm path) then a ++ [(pyLen (pbpKey n), n)]
      else a) acc = acc ++ pbpMatches names path := by
  induction names generalizing acc with
  | nil => simp [pbpMatches]
  | cons n t ih =>
    simp only [pbpMatches, List.foldl]
    by_cases h : strStarts (pbpKey n) (pbpNorm path) = true
    · rw [if_pos h, if_pos h, List.nil_append, ih,
        ih [(pyLen (pbpKey n), n)], List.append_assoc]
    · rw [if_neg h, if_neg h]
      exact ih acc

theorem pbpMatches_mem (names : List String) (path : String)
    (x : Nat × String) :
    x ∈ pbpMatches names path ↔
      x.2 ∈ names ∧ strStarts (pbpKey x.2) (pbpNorm path) = true ∧
        x.1 = pyLen (pbpKey x.2) := by
  induction names with
  | nil => simp [pbpMatches]
  | cons n t ih =>
    have hcons : pbpMatches (n :: t) path =
        (if strStarts (pbpKey n) (pbpNorm path) then [(pyLen (pbpKey n), n)]
         else []) ++ pbpMatches t path := by
      simp only [pbpMatches, List.foldl]
      by_cases h : strStarts (pbpKey n) (pbpNorm path) = true
      · rw [if_pos h, if_pos h, List.nil_append]
        exact pbpMatches_foldl_acc t path _
      · rw [if_neg h, if_neg h, List.nil_append]
    rw [hcons]
    by_cases h : strStarts (pbpKey n) (pbpNorm path) = true
    · rw [if_pos h]
      simp only [List.mem_append, List.mem_singleton, ih, List.mem_cons]
      constructor
      · rintro ((hx | hx) | ⟨h1, h2, h3⟩)
        · rw [hx]
          exact ⟨Or.inl rfl, h, rfl⟩
        · cases hx
        · exact ⟨Or.inr h1, h2, h3⟩
      · rintro ⟨h1 | h1, h2, h3⟩
        · rcases x with ⟨x1, x2⟩
          simp only [] at h1 h3
          subst h1
          subst h3
          simp
        · exact Or.inr ⟨h1, h2, h3⟩
    · rw [if_neg h, List.nil_append, ih]
      constructor
      · rintro ⟨h1, h2, h3⟩
        exact ⟨List.mem_cons_of_mem _ h1, h2, h3⟩
      · rintro ⟨h1, h2, h3⟩
        rcases List.mem_cons.mp h1 with h1 | h1
        · subst h1
          exact absurd h2 h
        · exact ⟨h1, h2, h3⟩

theorem get_repository_by_path_ok (cfg : Config) (s : Sys) (tid : Nat)
    (path : String) (trip : String × Option Repos × String) (s2 : Sys)
    (h : get_repository_by_path cfg s tid path = (Except.ok trip, s2)) :
    trip.1 = (splitPathInfo
      ((get_all_repositories cfg s).1.map (fun e => e.1)) path).1 ∧
    trip.2.2 = (splitPathInfo
      ((get_all_repositories cfg s).1.map (fun e => e.1)) path).2 := by
  simp only [get_repository_by_path] at h
  split at h
  · exact absurd h (by simp)
  · have h1 := congrArg Prod.fst h
    simp only [] at h1
    injection h1 with h1
    rw [← h1]
    exact ⟨rfl, rfl⟩

set_option maxHeartbeats 2000000 in
/-- C2: `get_repository_by_path` selects the registered name whose stripped
prefix match is longest, breaking equal-length ties by picking the
lexicographically greatest name, and returns the remaining path after the
matched prefix. -/
theorem repo_path_longest_match (cfg : Config) (s : Sys) (tid : Nat)
    (path : String) (all : List (String × RepoInfo)) (n : String)
    (h_all : s.mgr.allRepositories = some all)
    (hn : n ∈ all.map (fun e => e.1))
    (hm : strStarts (pbpKey n) (pbpNorm path) = true) :
    ∃ m, m ∈ all.map (fun e => e.1) ∧
      strStarts (pbpKey m) (pbpNorm path) = true ∧
      (∀ x ∈ all.map (fun e => e.1),
        strStarts (pbpKey x) (pbpNorm path) = true →
        pyLen (pbpKey x) < pyLen (pbpKey m) ∨
        (pyLen (pbpKey x) = pyLen (pbpKey m) ∧ pyStrLe x m = true)) ∧
      splitPathInfo (all.map (fun e => e.1)) path =
        (m, pyOrSlash (pyDrop (pbpNorm path) (pyLen (pbpKey m)))) ∧
      ∀ trip s2, get_repository_by_path cfg s tid path =
          (Except.ok trip, s2) →
        trip.1 = m ∧
        trip.2.2 = pyOrSlash (pyDrop (pbpNorm path) (pyLen (pbpKey m))) := by
  have hga : get_all_repositories cfg s = (all, s) := by
    simp [get_all_repositories, h_all]
  have hmem : (pyLen (pbpKey n), n) ∈
      pbpMatches (all.map (fun e => e.1)) path := by
    rw [pbpMatches_mem]
    exact ⟨hn, hm, rfl⟩
  have hperm := List.perm_insertionSort tupLe
    (pbpMatches (all.map (fun e => e.1)) path)
  have hne : List.insertionSort tupLe
      (pbpMatches (all.map (fun e => e.1)) path) ≠ [] := by
    intro hx
    rw [hx] at hperm
    rw [← hperm.mem_iff] at hmem
    cases hmem
  have hsorted := List.sorted_insertionSort tupLe
    (pbpMatches (all.map (fun e => e.1)) path)
  have hlmem : (List.insertionSort tupLe
      (pbpMatches (all.map (fun e => e.1)) path)).getLast hne ∈
      pbpMatches (all.map (fun e => e.1)) path :=
    hperm.mem_iff.mp (List.getLast_mem hne)
  have hlprops := (pbpMatches_mem (all.map (fun e => e.1)) path _).mp hlmem
  have hsplit : splitPathInfo (all.map (fun e => e.1)) path =
      (((List.insertionSort tupLe
          (pbpMatches (all.map (fun e => e.1)) path)).getLast hne).2,
        pyOrSlash (pyDrop (pbpNorm path)
          ((List.insertionSort tupLe
            (pbpMatches (all.map (fun e => e.1)) path)).getLast hne).1)) := by
    simp only [splitPathInfo, List.getLast?_eq_getLast _ hne]
  have hsplit2 : splitPathInfo (all.map (fun e => e.1)) path =
      (((List.insertionSort tupLe
          (pbpMatches (all.map (fun e => e.1)) path)).getLast hne).2,
        pyOrSlash (pyDrop (pbpNorm path) (pyLen (pbpKey
          ((List.insertionSort tupLe
            (pbpMatches (all.map (fun e => e.1)) path)).getLast hne).2)))) := by
    rw [hsplit, hlprops.2.2]
  refine ⟨_, hlprops.1, hlprops.2.1, ?_, hsplit2, ?_⟩
  · intro x hx hxm
    have hxmem : (pyLen (pbpKey x), x) ∈
        pbpMatches (all.map (fun e => e.1)) path := by
      rw [pbpMatches_mem]
      exact ⟨hx, hxm, rfl⟩
    have hle := sorted_rel_getLast tupLe_refl _ hsorted hne _
      (hperm.mem_iff.mpr hxmem)
    rcases hle with hlt | ⟨heq, hstr⟩
    · left
      rw [← hlprops.2.2]
      exact hlt
    · right
      rw [← hlprops.2.2]
      exact ⟨heq, hstr⟩
  · intro trip s2 h
    have hx := get_repository_by_path_ok cfg s tid path trip s2 h
    rw [hga] at hx
    simp only [] at hx
    refine ⟨?_, ?_⟩
    · rw [hx.1, hsplit2]
    · rw [hx.2, hsplit2]

/-- A registry fixture with the default repository and `sub`. -/
def sysW5 : Sys :=
  { db := [], mgr := { allRepositories := some [("", {}), ("sub", {})] } }

/-- Witness for `repo_path_longest_match`: with `""` and `"sub"` registered,
`sub/foo` is attributed to `sub` with remainder `foo`. -/
theorem repo_path_longest_match_witness :
    sysW5.mgr.allRepositories = some [("", {}), ("sub", {})] ∧
    "sub" ∈ ([("", ({} : RepoInfo)), ("sub", {})].map (fun e => e.1)) ∧
    strStarts (pbpKey "sub") (pbpNorm "sub/foo") = true ∧
    splitPathInfo ([("", ({} : RepoInfo)), ("sub", {})].map (fun e => e.1))
      "sub/foo" = ("sub", "foo") ∧
    (∃ m, m ∈ ([("", ({} : RepoInfo)), ("sub", {})].map (fun e => e.1)) ∧
      strStarts (pbpKey m) (pbpNorm "sub/foo") = true ∧
      (∀ x ∈ ([("", ({} : RepoInfo)), ("sub", {})].map (fun e => e.1)),
        strStarts (pbpKey x) (pbpNorm "sub/foo") = true →
        pyLen (pbpKey x) < pyLen (pbpKey m) ∨
        (pyLen (pbpKey x) = pyLen (pbpKey m) ∧ pyStrLe x m = true)) ∧
      splitPathInfo ([("", ({} : RepoInfo)), ("sub", {})].map (fun e => e.1))
        "sub/foo" =
        (m, pyOrSlash (pyDrop (pbpNorm "sub/foo") (pyLen (pbpKey m)))) ∧
      ∀ trip s2, get_repository_by_path cfgW sysW5 1 "sub/foo" =
          (Except.ok trip, s2) →
        trip.1 = m ∧
        trip.2.2 = pyOrSlash (pyDrop (pbpNorm "sub/foo") (pyLen (pbpKey m)))) :=
  ⟨rfl, by decide, by decide, by decide,
   repo_path_longest_match cfgW sysW5 1 "sub/foo" [("", {}), ("sub", {})]
     "sub" rfl (by decide) (by decide)⟩

/-! ### C6: notify silently skips changesets missing after resync -/

theorem foldl_append_eq_acc {α β : Type} (l : List α) (f : α → List β)
    (h : ∀ r ∈ l, f r = []) :
    ∀ acc, l.foldl (fun acc r => acc ++ f r) acc = acc := by
  induction l with
  | nil => intro acc; rfl
  | cons a t ih =>
    intro acc
    simp only [List.foldl]
    rw [h a (List.mem_cons_self a t), List.append_nil]
    exact ih (fun r hr => h r (List.mem_cons_of_mem a hr)) acc

/-- C6: when every matched repository raises `NoSuchChangeset` for `rev`
both before and after the `sync_changeset` resync attempt,
`notify('changeset_added', reponame, [rev])` does not raise and invokes no
change listener: the revision is silently skipped. -/
theorem notify_skips_missing_changeset (cfg : Config) (s : Sys) (tid : Nat)
    (reponame : String) (rev : Int)
    (hok : ((notify_matched cfg s tid reponame).1).isOk = true)
    (hfail : ∀ r ∈ (match (notify_matched cfg s tid reponame).1 with
      | Except.ok rs => rs
      | Except.error _ => []),
      r.behav.getChangesetPre rev = none ∧
      r.behav.getChangesetPost rev = none) :
    (notify cfg s tid "changeset_added" reponame [rev]).1 = Except.ok [] := by
  cases hm : notify_matched cfg s tid reponame with
  | mk fst snd =>
    rw [hm] at hok hfail
    cases fst with
    | error e => simp [Except.isOk, Except.toBool] at hok
    | ok rs =>
      simp only [] at hfail
      simp only [notify, hm]
      by_cases he : rs.isEmpty
      · simp [he]
      · simp only [he, Bool.false_eq_true, if_false]
        have hall : ∀ r ∈ List.insertionSort reposLe rs,
            notify_repos cfg.listeners "changeset_added" r [rev] = [] := by
          intro r hr
          have hr2 := (List.perm_insertionSort reposLe rs).mem_iff.mp hr
          have hf := hfail r hr2
          simp [notify_repos, notify_rev, hf.1, hf.2]
        rw [foldl_append_eq_acc _ _ hall]

/-- A state fixture: one real `svn` repository `r1` in the registry. -/
def sysW6 : Sys :=
  { db := []
    mgr := { allRepositories := some [("r1", { dir := some "/d", name := some "r1", id := some 1 })] } }

/-- Witness for `notify_skips_missing_changeset`: revision 5 is missing from
the only matched repository before and after resync; no listener fires. -/
theorem notify_skips_missing_changeset_witness :
    ((notify_matched cfgW sysW6 1 "r1").1).isOk = true ∧
    (∀ r ∈ (match (notify_matched cfgW sysW6 1 "r1").1 with
      | Except.ok rs => rs
      | Except.error _ => []),
      r.behav.getChangesetPre 5 = none ∧
      r.behav.getChangesetPost 5 = none) ∧
    (notify cfgW sysW6 1 "changeset_added" "r1" [5]).1 = Except.ok [] :=
  ⟨by decide, by decide,
   notify_skips_missing_changeset cfgW sysW6 1 "r1" 5 (by decide) (by decide)⟩

/-! ### C3: a repository added through the DB provider is retrievable -/

theorem lookupA_append {κ α : Type} [BEq κ] (l1 l2 : List (κ × α)) (k : κ) :
    lookupA (l1 ++ l2) k = (lookupA l1 k).or (lookupA l2 k) := by
  simp only [lookupA, List.find?_append]
  cases h : l1.find? (fun p => p.1 == k) <;> simp [h]

theorem tstep_mono (c : Connector) (table : List (String × Connector × Int))
    (tp : String × Int) (k : String) (cp : Connector × Int)
    (h : lookupA table k = some cp) :
    ∃ cp2, lookupA
      (match lookupA table tp.1 with
       | some cp => if tp.2 ≤ cp.2 then table else setA table tp.1 (c, tp.2)
       | none => setA table tp.1 (c, tp.2)) k = some cp2 ∧ cp.2 ≤ cp2.2 := by
  by_cases hk : tp.1 = k
  · subst hk
    simp only [h]
    by_cases hle : tp.2 ≤ cp.2
    · rw [if_pos hle]
      exact ⟨cp, h, le_refl _⟩
    · rw [if_neg hle]
      exact ⟨(c, tp.2), lookupA_setA_self _ _ _, by omega⟩
  · cases hl : lookupA table tp.1 with
    | some cp3 =>
      simp only [hl]
      by_cases hle : tp.2 ≤ cp3.2
      · rw [if_pos hle]
        exact ⟨cp, h, le_refl _⟩
      · rw [if_neg hle]
        refine ⟨cp, ?_, le_refl _⟩
        rw [lookupA_setA_ne _ _ _ _ (fun hx => hk hx.symm)]
        exact h
    | none =>
      simp only [hl]
      refine ⟨cp, ?_, le_refl _⟩
      rw [lookupA_setA_ne _ _ _ _ (fun hx => hk hx.symm)]
      exact h

theorem tfold_mono (c : Connector) (ps : List (String × Int))
    (table : List (String × Connector × Int)) (k : String)
    (cp : Connector × Int) (h : lookupA table k = some cp) :
    ∃ cp2, lookupA (ps.foldl (fun table2 tp =>
      match lookupA table2 tp.1 with
      | some cp => if tp.2 ≤ cp.2 then table2 else setA table2 tp.1 (c, tp.2)
      | none => setA table2 tp.1 (c, tp.2)) table) k = some cp2 ∧
      cp.2 ≤ cp2.2 := by
  induction ps generalizing table cp with
  | nil => exact ⟨cp, h, le_refl _⟩
  | cons tp ps ih =>
    obtain ⟨cp2, h2, hle2⟩ := tstep_mono c table tp k cp h
    obtain ⟨cp3, h3, hle3⟩ := ih _ cp2 h2
    exact ⟨cp3, h3, le_trans hle2 hle3⟩

theorem tfold_covers (c : Connector) (ps : List (String × Int))
    (table : List (String × Connector × Int)) (tp : String × Int)
    (htp : tp ∈ ps) :
    ∃ cp2, lookupA (ps.foldl (fun table2 tp =>
      match lookupA table2 tp.1 with
      | some cp => if tp.2 ≤ cp.2 then table2 else setA table2 tp.1 (c, tp.2)
      | none => setA table2 tp.1 (c, tp.2)) table) tp.1 = some cp2 ∧
      tp.2 ≤ cp2.2 := by
  induction ps generalizing table with
  | nil => cases htp
  | cons tp0 ps ih =>
    rcases List.mem_cons.mp htp with heq | hmem
    · subst heq
      have hstep : ∃ cp1, lookupA
          (match lookupA table tp.1 with
           | some cp => if tp.2 ≤ cp.2 then table else setA table tp.1 (c, tp.2)
           | none => setA table tp.1 (c, tp.2)) tp.1 = some cp1 ∧
          tp.2 ≤ cp1.2 := by
        cases hl : lookupA table tp.1 with
        | some cp3 =>
          simp only [hl]
          by_cases hle : tp.2 ≤ cp3.2
          · rw [if_pos hle]
            exact ⟨cp3, hl, hle⟩
          · rw [if_neg hle]
            exact ⟨(c, tp.2), lookupA_setA_self _ _ _, le_refl _⟩
        | none =>
          simp only [hl]
          exact ⟨(c, tp.2), lookupA_setA_self _ _ _, le_refl _⟩
      obtain ⟨cp1, h1, hle1⟩ := hstep
      obtain ⟨cp2, h2, hle2⟩ := tfold_mono c ps _ tp.1 cp1 h1
      exact ⟨cp2, h2, le_trans hle1 hle2⟩
    · exact ih _ hmem

theorem bfold_mono (l : List Connector)
    (table : List (String × Connector × Int)) (k : String)
    (cp : Connector × Int) (h : lookupA table k = some cp) :
    ∃ cp2, lookupA (l.foldl (fun table c =>
      c.supported.foldl (fun table2 tp =>
        match lookupA table2 tp.1 with
        | some cp => if tp.2 ≤ cp.2 then table2 else setA table2 tp.1 (c, tp.2)
        | none => setA table2 tp.1 (c, tp.2)) table) table) k = some cp2 ∧
      cp.2 ≤ cp2.2 := by
  induction l generalizing table cp with
  | nil => exact ⟨cp, h, le_refl _⟩
  | cons c0 l ih =>
    simp only [List.foldl]
    obtain ⟨cp2, h2, hle2⟩ := tfold_mono c0 c0.supported table k cp h
    obtain ⟨cp3, h3, hle3⟩ := ih _ cp2 h2
    exact ⟨cp3, h3, le_trans hle2 hle3⟩

theorem buildConnectorTable_covers (cs : List Connector) (c : Connector)
    (hc : c ∈ cs) (tp : String × Int) (htp : tp ∈ c.supported) :
    ∃ cp2, lookupA (buildConnectorTable cs) tp.1 = some cp2 ∧
      tp.2 ≤ cp2.2 := by
  have main : ∀ (l : List Connector) (table : List (String × Connector × Int)),
      c ∈ l →
      ∃ cp2, lookupA (l.foldl (fun table c =>
        c.supported.foldl (fun table2 tp =>
          match lookupA table2 tp.1 with
          | some cp => if tp.2 ≤ cp.2 then table2
            else setA table2 tp.1 (c, tp.2)
          | none => setA table2 tp.1 (c, tp.2)) table) table) tp.1 =
        some cp2 ∧ tp.2 ≤ cp2.2 := by
    intro l
    induction l with
    | nil => intro table h; cases h
    | cons c0 l ih =>
      intro table hmem
      rcases List.mem_cons.mp hmem with heq | hmem2
      · subst heq
        simp only [List.foldl]
        obtain ⟨cp1, h1, hle1⟩ := tfold_covers c c.supported table tp htp
        obtain ⟨cp2, h2, hle2⟩ := bfold_mono l _ tp.1 cp1 h1
        exact ⟨cp2, h2, le_trans hle1 hle2⟩
      · simp only [List.foldl]
        exact ih _ hmem2
  exact main cs [] hc

theorem supported_mem_pairs (cs : List Connector) (t : String)
    (ht : t ∈ get_supported_types cs) :
    ∃ c, c ∈ cs ∧ ∃ p, (t, p) ∈ c.supported ∧ 0 ≤ p := by
  have inner : ∀ (c : Connector) (ps : List (String × Int))
      (acc : List String), t ∈ ps.foldl (fun acc2 tp =>
        if 0 ≤ tp.2 then
          (if acc2.contains tp.1 then acc2 else acc2 ++ [tp.1])
        else acc2) acc →
      t ∈ acc ∨ ∃ p, (t, p) ∈ ps ∧ 0 ≤ p := by
    intro c ps
    induction ps with
    | nil => intro acc h; exact Or.inl h
    | cons tp ps ih =>
      intro acc h
      simp only [List.foldl] at h
      rcases ih _ h with h2 | h2
      · by_cases h0 : (0 : Int) ≤ tp.2
        · rw [if_pos h0] at h2
          by_cases hc : acc.contains tp.1
          · rw [if_pos hc] at h2
            exact Or.inl h2
          · rw [if_neg hc] at h2
            rcases List.mem_append.mp h2 with h3 | h3
            · exact Or.inl h3
            · rcases List.mem_singleton.mp h3 with h4
              right
              rcases tp with ⟨t0, p0⟩
              exact ⟨p0, by rw [h4]; exact List.mem_cons_self _ _, h0⟩
        · rw [if_neg h0] at h2
          exact Or.inl h2
      · rcases h2 with ⟨p, hp, hp0⟩
        exact Or.inr ⟨p, List.mem_cons_of_mem _ hp, hp0⟩
  have outer : ∀ (l : List Connector) (acc : List String),
      t ∈ l.foldl (fun acc c =>
        c.supported.foldl (fun acc2 tp =>
          if 0 ≤ tp.2 then
            (if acc2.contains tp.1 then acc2 else acc2 ++ [tp.1])
          else acc2) acc) acc →
      t ∈ acc ∨ ∃ c, c ∈ l ∧ ∃ p, (t, p) ∈ c.supported ∧ 0 ≤ p := by
    intro l
    induction l with
    | nil => intro acc h; exact Or.inl h
    | cons c0 l ih =>
      intro acc h
      simp only [List.foldl] at h
      rcases ih _ h with h2 | h2
      · rcases inner c0 c0.supported acc h2 with h3 | ⟨p, hp, hp0⟩
        · exact Or.inl h3
        · exact Or.inr ⟨c0, List.mem_cons_self _ _, p, hp, hp0⟩
      · rcases h2 with ⟨c, hcm, p, hp, hp0⟩
        exact Or.inr ⟨c, List.mem_cons_of_mem _ hcm, p, hp, hp0⟩
  rcases outer cs [] ht with h | h
  · cases h
  · exact h

theorem get_connector_of_supported (cs : List Connector) (t : String)
    (ht : t ∈ get_supported_types cs) :
    ∃ c, get_connector cs t = Except.ok c := by
  obtain ⟨c, hcm, p, hp, hp0⟩ := supported_mem_pairs cs t ht
  obtain ⟨cp2, h2, hle2⟩ := buildConnectorTable_covers cs c hcm (t, p) hp
  refine ⟨cp2.1, ?_⟩
  simp only [get_connector, h2]
  rw [if_pos (by omega)]

theorem mem_setA {κ α : Type} [BEq κ] (l : List (κ × α)) (k : κ) (v : α)
    (e : κ × α) (h : e ∈ setA l k v) : e ∈ l ∨ e = (k, v) := by
  induction l with
  | nil =>
    simp only [setA] at h
    exact Or.inr (List.mem_singleton.mp h)
  | cons p t ih =>
    rcases p with ⟨k', v'⟩
    simp only [setA] at h
    by_cases hk : (k' == k)
    · rw [if_pos hk] at h
      rcases List.mem_cons.mp h with h2 | h2
      · exact Or.inr h2
      · exact Or.inl (List.mem_cons_of_mem _ h2)
    · rw [if_neg hk] at h
      rcases List.mem_cons.mp h with h2 | h2
      · exact Or.inl (by rw [h2]; exact List.mem_cons_self _ _)
      · rcases ih h2 with h3 | h3
        · exact Or.inl (List.mem_cons_of_mem _ h3)
        · exact Or.inr h3

theorem attrsOfId_skip (l : List Row) (i : Nat) (acc : RepoInfo)
    (h : ∀ r ∈ l, r.rid ≠ i) :
    l.foldl (fun info r =>
      match r.rvalue with
      | some v => if r.rid == i then info.setAttr r.rkey v else info
      | none => info) acc = acc := by
  induction l generalizing acc with
  | nil => rfl
  | cons r t ih =>
    simp only [List.foldl]
    have hne : (r.rid == i) = false := by
      simp [h r (List.mem_cons_self r t)]
    cases hv : r.rvalue with
    | some v =>
      simp only [hv, hne, Bool.false_eq_true, if_false]
      exact ih _ (fun r2 hr2 => h r2 (List.mem_cons_of_mem _ hr2))
    | none =>
      simp only [hv]
      exact ih _ (fun r2 hr2 => h r2 (List.mem_cons_of_mem _ hr2))

theorem setAttr_name (info : RepoInfo) (key w : String) :
    (info.setAttr key w).name = if key == "name" then some w else info.name := by
  unfold RepoInfo.setAttr
  split_ifs with h1 h2 h3 h4 h5 h6 h7 <;> simp_all

theorem attrsOfId_fold_name (l : List Row) (i : Nat) (acc : RepoInfo)
    (v : String)
    (h : (l.foldl (fun info r =>
      match r.rvalue with
      | some v => if r.rid == i then info.setAttr r.rkey v else info
      | none => info) acc).name = some v) :
    acc.name = some v ∨ ∃ r, r ∈ l ∧ r.rkey = "name" ∧ r.rvalue = some v := by
  induction l generalizing acc with
  | nil => exact Or.inl h
  | cons r t ih =>
    simp only [List.foldl] at h
    rcases ih _ h with h2 | h2
    · cases hv : r.rvalue with
      | none =>
        rw [hv] at h2
        exact Or.inl h2
      | some w =>
        simp only [hv] at h2
        by_cases hid : (r.rid == i) = true
        · rw [if_pos hid, setAttr_name] at h2
          by_cases hk : (r.rkey == "name") = true
          · rw [if_pos hk] at h2
            refine Or.inr ⟨r, List.mem_cons_self _ _, eq_of_beq hk, ?_⟩
            rw [hv]
            injection h2 with h3
            rw [h3]
          · rw [if_neg hk] at h2
            exact Or.inl h2
        · rw [if_neg hid] at h2
          exact Or.inl h2
    · rcases h2 with ⟨r2, hm, hk2, hv2⟩
      exact Or.inr ⟨r2, List.mem_cons_of_mem _ hm, hk2, hv2⟩

theorem dbIds_foldl_sub (l : List Row) (acc : List Nat) (x : Nat)
    (h : x ∈ l.foldl (fun acc r =>
      if acc.contains r.rid then acc else acc ++ [r.rid]) acc) :
    x ∈ acc ∨ ∃ r, r ∈ l ∧ r.rid = x := by
  induction l generalizing acc with
  | nil => exact Or.inl h
  | cons r t ih =>
    simp only [List.foldl] at h
    rcases ih _ h with h2 | h2
    · by_cases hc : acc.contains r.rid
      · rw [if_pos hc] at h2
        exact Or.inl h2
      · rw [if_neg hc] at h2
        rcases List.mem_append.mp h2 with h3 | h3
        · exact Or.inl h3
        · exact Or.inr ⟨r, List.mem_cons_self _ _,
            (List.mem_singleton.mp h3).symm⟩
    · rcases h2 with ⟨r2, hr2, hx⟩
      exact Or.inr ⟨r2, List.mem_cons_of_mem _ hr2, hx⟩

theorem dbIds_fold_mem (rows : List Row) (i : Nat)
    (hall : ∀ r ∈ rows, r.rid = i) :
    ∀ acc, i ∈ acc → rows.foldl (fun acc r =>
      if acc.contains r.rid then acc else acc ++ [r.rid]) acc = acc := by
  induction rows with
  | nil =>
    intro acc _
    rfl
  | cons r t ih =>
    intro acc hi
    simp only [List.foldl]
    rw [hall r (List.mem_cons_self _ _)]
    rw [if_pos (List.elem_eq_true_of_mem hi)]
    exact ih (fun r2 hr2 => hall r2 (List.mem_cons_of_mem _ hr2)) acc hi

theorem dbIds_append3 (db : Db) (i : Nat) (r1 r2 r3 : Row)
    (h1 : r1.rid = i) (h2 : r2.rid = i) (h3 : r3.rid = i)
    (hni : (dbIds db).contains i = false) :
    dbIds (db ++ [r1, r2, r3]) = dbIds db ++ [i] := by
  simp only [dbIds, List.foldl_append]
  rw [show [r1, r2, r3] = r1 :: [r2, r3] from rfl]
  simp only [List.foldl]
  rw [show (db.foldl (fun acc r =>
    if acc.contains r.rid then acc else acc ++ [r.rid]) []) = dbIds db from rfl]
  rw [h1, hni]
  simp only [Bool.false_eq_true, if_false]
  exact dbIds_fold_mem [r2, r3] i
    (by
      intro r hr
      rcases List.mem_cons.mp hr with hx | hx
      · rw [hx]; exact h2
      · rw [List.mem_singleton.mp hx]; exact h3)
    _ (List.mem_append_right _ (List.mem_singleton.mpr rfl))

theorem attrsOfId_append_old (db rows : List Row) (j : Nat)
    (h : ∀ r ∈ rows, r.rid ≠ j) :
    attrsOfId (db ++ rows) j = attrsOfId db j := by
  simp only [attrsOfId, List.foldl_append]
  exact attrsOfId_skip rows j _ h

theorem attrsOfId_new (db : Db) (i : Nat) (reponame dir t : String)
    (hfr : ∀ r ∈ db, r.rid ≠ i) :
    attrsOfId (db ++ [⟨i, "name", some reponame⟩, ⟨i, "dir", some dir⟩,
      ⟨i, "type", some t⟩]) i =
      { name := some reponame, dir := some dir, type := some t } := by
  simp only [attrsOfId, List.foldl_append]
  rw [show (db.foldl (fun info r =>
    match r.rvalue with
    | some v => if r.rid == i then info.setAttr r.rkey v else info
    | none => info) {}) = ({} : RepoInfo) from attrsOfId_skip db i {} hfr]
  simp [RepoInfo.setAttr]

theorem db_fold_old (newdb : Db) (reponame : String) (ids : List Nat)
    (hname : ∀ j ∈ ids, ∀ v, (attrsOfId newdb j).name = some v →
      v ≠ reponame) :
    ∀ acc : List (String × RepoInfo),
    lookupA acc reponame = none →
    (∀ e ∈ acc, e.2.id.isSome = true) →
    lookupA (ids.foldl (fun acc i =>
      let info := attrsOfId newdb i
      match info.name with
      | some n =>
        if info.dir.isSome || info.alias'.isSome then
          setA acc n { info with id := some i }
        else acc
      | none => acc) acc) reponame = none ∧
    ∀ e ∈ (ids.foldl (fun acc i =>
      let info := attrsOfId newdb i
      match info.name with
      | some n =>
        if info.dir.isSome || info.alias'.isSome then
          setA acc n { info with id := some i }
        else acc
      | none => acc) acc), e.2.id.isSome = true := by
  induction ids with
  | nil =>
    intro acc h1 h2
    exact ⟨h1, h2⟩
  | cons j t ih =>
    intro acc h1 h2
    simp only [List.foldl]
    have hstep : lookupA (match (attrsOfId newdb j).name with
        | some n =>
          if (attrsOfId newdb j).dir.isSome ||
              (attrsOfId newdb j).alias'.isSome then
            setA acc n { attrsOfId newdb j with id := some j }
          else acc
        | none => acc) reponame = none ∧
        ∀ e ∈ (match (attrsOfId newdb j).name with
        | some n =>
          if (attrsOfId newdb j).dir.isSome ||
              (attrsOfId newdb j).alias'.isSome then
            setA acc n { attrsOfId newdb j with id := some j }
          else acc
        | none => acc), e.2.id.isSome = true := by
      cases hn : (attrsOfId newdb j).name with
      | none => exact ⟨h1, h2⟩
      | some n =>
        simp only []
        have hne : n ≠ reponame :=
          hname j (List.mem_cons_self _ _) n hn
        by_cases hd : ((attrsOfId newdb j).dir.isSome ||
            (attrsOfId newdb j).alias'.isSome) = true
        · rw [if_pos hd]
          refine ⟨?_, ?_⟩
          · rw [lookupA_setA_ne _ _ _ _ (fun hx => hne hx.symm)]
            exact h1
          · intro e he
            rcases mem_setA _ _ _ _ he with h3 | h3
            · exact h2 e h3
            · rw [h3]
              rfl
        · rw [if_neg hd]
          exact ⟨h1, h2⟩
    exact ih (fun j2 hj2 => hname j2 (List.mem_cons_of_mem _ hj2)) _ hstep.1 hstep.2

/-- After `add_repository` writes the three rows for a fresh name, the DB
provider yields an entry for that name carrying the written attributes. -/
theorem db_get_repositories_new (db : Db) (reponame dir t : String)
    (hfresh : findRepoNameRow db reponame = none) :
    lookupA (db_get_repositories (db ++
        [⟨maxId db + 1, "name", some reponame⟩,
         ⟨maxId db + 1, "dir", some dir⟩,
         ⟨maxId db + 1, "type", some t⟩])) reponame =
      some { name := some reponame, dir := some dir, type := some t,
             id := some (maxId db + 1) } ∧
    ∀ e ∈ db_get_repositories (db ++
        [⟨maxId db + 1, "name", some reponame⟩,
         ⟨maxId db + 1, "dir", some dir⟩,
         ⟨maxId db + 1, "type", some t⟩]), e.2.id.isSome = true := by
  have hfr : ∀ r ∈ db, r.rid ≠ maxId db + 1 := by
    intro r hr
    have := rid_le_maxId hr
    omega
  have hni : (dbIds db).contains (maxId db + 1) = false := by
    by_cases hc : (dbIds db).contains (maxId db + 1) = true
    · exfalso
      rcases dbIds_foldl_sub db [] _ (List.mem_of_elem_eq_true hc) with h | h
      · cases h
      · rcases h with ⟨r, hr, hrid⟩
        exact hfr r hr hrid
    · simpa using hc
  have hids : dbIds (db ++
      [⟨maxId db + 1, "name", some reponame⟩,
       ⟨maxId db + 1, "dir", some dir⟩,
       ⟨maxId db + 1, "type", some t⟩]) = dbIds db ++ [maxId db + 1] :=
    dbIds_append3 db _ _ _ _ rfl rfl rfl hni
  have hnew := attrsOfId_new db (maxId db + 1) reponame dir t hfr
  have hold : ∀ j ∈ dbIds db, ∀ v,
      (attrsOfId (db ++
        [⟨maxId db + 1, "name", some reponame⟩,
         ⟨maxId db + 1, "dir", some dir⟩,
         ⟨maxId db + 1, "type", some t⟩]) j).name = some v →
      v ≠ reponame := by
    intro j hj v hv hcon
    subst hcon
    have hjne : j ≠ maxId db + 1 := by
      rcases dbIds_foldl_sub db [] j hj with h | h
      · cases h
      · rcases h with ⟨r, hr, hrid⟩
        intro hx
        exact hfr r hr (by rw [hrid, hx])
    rw [attrsOfId_append_old db _ j
      (by
        intro r hr
        simp only [List.mem_cons] at hr
        rcases hr with h | h | h | h
        · rw [h]; intro hx; exact hjne hx.symm
        · rw [h]; intro hx; exact hjne hx.symm
        · rw [h]; intro hx; exact hjne hx.symm
        · cases h)] at hv
    rcases attrsOfId_fold_name db j {} v hv with h | h
    · cases h
    · rcases h with ⟨r, hr, hk, hval⟩
      simp only [findRepoNameRow, Option.map_eq_none'] at hfresh
      rw [List.find?_eq_none] at hfresh
      exact hfresh r hr (by simp [hk, hval])
  obtain ⟨hl, hm⟩ := db_fold_old (db ++
      [⟨maxId db + 1, "name", some reponame⟩,
       ⟨maxId db + 1, "dir", some dir⟩,
       ⟨maxId db + 1, "type", some t⟩]) reponame (dbIds db) hold [] rfl
    (by intro e he; cases he)
  have hlast : db_get_repositories (db ++
      [⟨maxId db + 1, "name", some reponame⟩,
       ⟨maxId db + 1, "dir", some dir⟩,
       ⟨maxId db + 1, "type", some t⟩]) =
      setA ((dbIds db).foldl (fun acc i =>
        let info := attrsOfId (db ++
          [⟨maxId db + 1, "name", some reponame⟩,
           ⟨maxId db + 1, "dir", some dir⟩,
           ⟨maxId db + 1, "type", some t⟩]) i
        match info.name with
        | some n =>
          if info.dir.isSome || info.alias'.isSome then
            setA acc n { info with id := some i }
          else acc
        | none => acc) []) reponame
        { name := some reponame, dir := some dir, type := some t,
          id := some (maxId db + 1) } := by
    simp only [db_get_repositories, hids, List.foldl_append, List.foldl, hnew]
    simp
  rw [hlast]
  constructor
  · exact lookupA_setA_self _ _ _
  · intro e he
    rcases mem_setA _ _ _ _ he with h3 | h3
    · exact hm e h3
    · rw [h3]
      rfl

theorem get_all_inner_spec (entries : List (String × RepoInfo)) :
    (∀ e ∈ entries, e.2.id.isSome = true) →
    ∀ acc : (List (String × RepoInfo)) × Db,
    (entries.foldl (fun acc2 entry =>
      if (lookupA acc2.1 entry.1).isSome then acc2
      else
        let info := { entry.2 with name := some entry.1 }
        match info.id with
        | some _ => (acc2.1 ++ [(entry.1, info)], acc2.2)
        | none =>
          let r := get_repository_id acc2.2 entry.1
          (acc2.1 ++ [(entry.1, { info with id := some r.1 })], r.2))
      acc).2 = acc.2 ∧
    ∀ k, lookupA ((entries.foldl (fun acc2 entry =>
      if (lookupA acc2.1 entry.1).isSome then acc2
      else
        let info := { entry.2 with name := some entry.1 }
        match info.id with
        | some _ => (acc2.1 ++ [(entry.1, info)], acc2.2)
        | none =>
          let r := get_repository_id acc2.2 entry.1
          (acc2.1 ++ [(entry.1, { info with id := some r.1 })], r.2))
      acc).1) k =
      (lookupA acc.1 k).or ((lookupA entries k).map
        (fun inf => { inf with name := some k })) := by
  induction entries with
  | nil =>
    intro _ acc
    refine ⟨rfl, fun k => ?_⟩
    rw [show lookupA ([] : List (String × RepoInfo)) k = none from rfl]
    simp
  | cons e t ih =>
    intro hid acc
    have hide : e.2.id.isSome = true := hid e (List.mem_cons_self _ _)
    have hidt : ∀ x ∈ t, x.2.id.isSome = true :=
      fun x hx => hid x (List.mem_cons_of_mem _ hx)
    simp only [List.foldl]
    rcases e with ⟨n, inf⟩
    simp only [] at hide
    obtain ⟨j, hj⟩ := Option.isSome_iff_exists.mp hide
    have hstep : (if (lookupA acc.1 n).isSome then acc
        else
          let info := { inf with name := some n }
          match info.id with
          | some _ => (acc.1 ++ [(n, info)], acc.2)
          | none =>
            let r := get_repository_id acc.2 n
            (acc.1 ++ [(n, { info with id := some r.1 })], r.2)) =
        (if (lookupA acc.1 n).isSome then acc
         else (acc.1 ++ [(n, { inf with name := some n })], acc.2)) := by
      by_cases hc : (lookupA acc.1 n).isSome
      · rw [if_pos hc, if_pos hc]
      · rw [if_neg hc, if_neg hc]
        simp only []
        rw [show ({ inf with name := some n } : RepoInfo).id = inf.id
          from rfl, hj]
    rw [hstep]
    by_cases hc : (lookupA acc.1 n).isSome
    · rw [if_pos hc]
      obtain ⟨h1, h2⟩ := ih hidt acc
      refine ⟨h1, fun k => ?_⟩
      rw [h2 k, lookupA_cons]
      by_cases hk : (n == k)
      · rw [if_pos hk]
        obtain ⟨v, hv⟩ := Option.isSome_iff_exists.mp hc
        have hkn : n = k := eq_of_beq hk
        subst hkn
        rw [hv]
        rfl
      · rw [if_neg hk]
    · rw [if_neg hc]
      obtain ⟨h1, h2⟩ :=
        ih hidt (acc.1 ++ [(n, { inf with name := some n })], acc.2)
      refine ⟨h1, fun k => ?_⟩
      rw [h2 k, lookupA_cons, lookupA_append]
      by_cases hk : (n == k)
      · rw [if_pos hk]
        have hkn : n = k := eq_of_beq hk
        subst hkn
        have hnone : lookupA acc.1 n = none := by
          cases hl : lookupA acc.1 n with
          | none => rfl
          | some v =>
            rw [hl] at hc
            simp [Option.isSome] at hc
        rw [hnone]
        rw [show lookupA [(n, ({ inf with name := some n } : RepoInfo))] n =
          some { inf with name := some n } from by
            rw [lookupA_cons, if_pos (beq_self_eq_true n)]]
        rfl
      · rw [if_neg hk]
        rw [show lookupA [(n, ({ inf with name := some n } : RepoInfo))] k =
          none from by rw [lookupA_cons, if_neg hk]; rfl]
        rw [Option.or_none]

theorem get_all_db_provider (cfg : Config) (s1 : Sys)
    (hprov : cfg.providers = [db_get_repositories])
    (hnone : s1.mgr.allRepositories = none)
    (hid : ∀ e ∈ db_get_repositories s1.db, e.2.id.isSome = true) :
    (get_all_repositories cfg s1).2 =
      { db := s1.db, mgr := { s1.mgr with
          allRepositories := some (get_all_repositories cfg s1).1 } } ∧
    ∀ k, lookupA (get_all_repositories cfg s1).1 k =
      (lookupA (db_get_repositories s1.db) k).map
        (fun inf => { inf with name := some k }) := by
  obtain ⟨h1, h2⟩ :=
    get_all_inner_spec (db_get_repositories s1.db) hid ([], s1.db)
  constructor
  · simp only [get_all_repositories, hnone, hprov, List.foldl]
    rw [h1]
  · simp only [get_all_repositories, hnone, hprov, List.foldl]
    exact h2

theorem pyTruthy_of_isabs (dir : String) (h : os_path_isabs dir = true) :
    pyTruthy (some dir) = true := by
  have hne : dir ≠ "" := by
    intro hx
    subst hx
    exact absurd h (by decide)
  simp [pyTruthy, hne]

theorem get_repository_miss_eq2g (cfg : Config) (s s' : Sys) (tid : Nat)
    (rn : String) (all : List (String × RepoInfo)) (c : Connector)
    (hga : get_all_repositories cfg s = (all, s'))
    (hd : pyTruthy (resolveInfo all rn).2.dir = true)
    (hct : lookupA s'.mgr.cache tid = none)
    (hcc : get_connector cfg.connectors
      (pyOr (resolveInfo all rn).2.type cfg.repository_type) = Except.ok c) :
    get_repository cfg s tid rn =
      (Except.ok (some (missRepo cfg s' rn all c)),
       { s' with mgr := { s'.mgr with
           cache := setA (setA s'.mgr.cache tid []) tid
             (setA [] (resolveInfo all rn).1 (missRepo cfg s' rn all c))
           nextInstId := s'.mgr.nextInstId + 1 } }) := by
  simp only [get_repository, hga, hd, Bool.not_true, hct,
    lookupA_setA_self, Option.getD, hcc, missRepo]
  have hn : lookupA ([] : List (String × Repos))
      (resolveInfo all rn).1 = none := rfl
  simp only [hn]
  simp

/-- C3: a non-default repository inserted through
`DbRepositoryProvider.add_repository` with a supported type and an absolute
directory is retrievable after the `reload_repositories` that
`add_repository` performs: `get_repository` returns a backend whose
`reponame` is the inserted name. -/
theorem add_repository_then_get (cfg : Config) (s : Sys) (tid : Nat)
    (reponame dir t : String)
    (hprov : cfg.providers = [db_get_repositories])
    (hnd : is_default reponame = false)
    (habs : os_path_isabs dir = true)
    (htne : t ≠ "")
    (hts : t ∈ get_supported_types cfg.connectors)
    (hfresh : findRepoNameRow s.db reponame = none) :
    ∃ s1, add_repository cfg s reponame dir (some t) = (Except.ok (), s1) ∧
      ∃ r s2, get_repository cfg s1 tid reponame =
        (Except.ok (some r), s2) ∧ r.reponame = reponame := by
  have hcondP : ¬(pyTruthy (some t) = true ∧
      pyStrOr (some t) ∉ get_supported_types cfg.connectors) := by
    rintro ⟨_, hmem⟩
    apply hmem
    simpa [pyStrOr, pyOr, htne] using hts
  have hnds : (if is_default reponame then "" else reponame) = reponame := by
    simp [hnd]
  have hts2 : pyStrOr (some t) = t := by
    simp [pyStrOr, pyOr, htne]
  have hfr := get_repository_id_fresh hfresh
  have hadd : add_repository cfg s reponame dir (some t) =
      (Except.ok (), reload_repositories { s with db :=
        s.db ++ [⟨maxId s.db + 1, "name", some reponame⟩,
                 ⟨maxId s.db + 1, "dir", some dir⟩,
                 ⟨maxId s.db + 1, "type", some t⟩] }) := by
    simp [add_repository, habs, hnds, hts2, hfr]
    exact fun _ => hts
  obtain ⟨hnl, hid_all⟩ := db_get_repositories_new s.db reponame dir t hfresh
  obtain ⟨S1, hS1⟩ : ∃ S1, reload_repositories { s with db :=
      s.db ++ [⟨maxId s.db + 1, "name", some reponame⟩,
               ⟨maxId s.db + 1, "dir", some dir⟩,
               ⟨maxId s.db + 1, "type", some t⟩] } = S1 := ⟨_, rfl⟩
  refine ⟨S1, by rw [hadd, hS1], ?_⟩
  have hdb : S1.db = s.db ++
      [⟨maxId s.db + 1, "name", some reponame⟩,
       ⟨maxId s.db + 1, "dir", some dir⟩,
       ⟨maxId s.db + 1, "type", some t⟩] := by
    rw [← hS1]
    rfl
  have hnone : S1.mgr.allRepositories = none := by
    rw [← hS1]
    rfl
  have hcache : S1.mgr.cache = [] := by
    rw [← hS1]
    rfl
  obtain ⟨hga2, hlk⟩ := get_all_db_provider cfg S1 hprov hnone
    (by rw [hdb]; exact hid_all)
  have hga3 : get_all_repositories cfg S1 =
      ((get_all_repositories cfg S1).1, (get_all_repositories cfg S1).2) := rfl
  rw [hga2] at hga3
  have hlkr := hlk reponame
  rw [hdb, hnl] at hlkr
  have hres : resolveInfo (get_all_repositories cfg S1).1 reponame =
      (reponame,
       { name := some reponame, dir := some dir, type := some t,
         id := some (maxId s.db + 1) }) := by
    simp [resolveInfo, hlkr]
  obtain ⟨c, hcc⟩ := get_connector_of_supported cfg.connectors t hts
  have hct : lookupA ({ db := S1.db, mgr := { S1.mgr with
      allRepositories := some (get_all_repositories cfg S1).1 } } :
      Sys).mgr.cache tid = none := by
    simp only [hcache]
    rfl
  have heq := get_repository_miss_eq2g cfg S1 _ tid reponame _ c hga3
    (by rw [hres]; exact pyTruthy_of_isabs dir habs)
    hct
    (by rw [hres]; simpa [pyOr, htne] using hcc)
  refine ⟨_, _, heq, ?_⟩
  simp [missRepo, mkRepository, hres]

/-- Witness for `add_repository_then_get`: adding `r` as an absolute-path
`svn` repository on an empty state makes `get_repository "r"` return a
backend named `r`. -/
theorem add_repository_then_get_witness :
    cfgW.providers = [db_get_repositories] ∧
    is_default "r" = false ∧
    os_path_isabs "/d" = true ∧
    ("svn" : String) ≠ "" ∧
    "svn" ∈ get_supported_types cfgW.connectors ∧
    findRepoNameRow ({} : Sys).db "r" = none ∧
    (∃ s1, add_repository cfgW {} "r" "/d" (some "svn") =
        (Except.ok (), s1) ∧
      ∃ r s2, get_repository cfgW s1 1 "r" = (Except.ok (some r), s2) ∧
        r.reponame = "r") :=
  ⟨rfl, by decide, by decide, by decide, by decide, rfl,
   add_repository_then_get cfgW {} 1 "r" "/d" "svn" rfl (by decide)
     (by decide) (by decide) (by decide) rfl⟩
